import Mathlib

/-!
Verification development for the `beast-mailbox-core` Redis-backed mailbox
service (`src/beast_mailbox_core/redis_mailbox.py`).

The embedding is shallow: the pure message codec (`to_redis_fields` /
`from_redis_fields`, together with the UTF-8 byte layer and the JSON layer
used by `json.dumps` / `json.loads`) is modelled as executable Lean
functions, and the effectful service operations (`start`,
`_recover_pending_messages`, `_consume_loop`, `_dispatch`, `send_message`)
are modelled as functions from explicit oracle inputs (the responses the
Redis client would return) to traces of effects.
-/

set_option maxHeartbeats 1000000
set_option maxRecDepth 4000

namespace Mailbox

/-- A Python byte string: a list of byte values (each `< 256`). -/
abbrev ByteStr := List Nat

/-- Errors a decode path can raise (modelling Python exceptions). -/
inductive PyErr where
  | unicodeDecodeError
  | jsonDecodeError
  | valueError
  deriving DecidableEq, Repr

/-! ## UTF-8 (Python `bytes.decode()` / implicit `str` → `bytes` transport)

`from_redis_fields` starts with `k.decode()` / `v.decode()`, which raises
`UnicodeDecodeError` exactly when the bytes are not valid UTF-8.  We model
the decoder directly; `utf8Encode` is the inverse transport applied by the
Redis client when a `str` field is written. -/

/-- Encode one Unicode scalar value (a Lean `Char`) as UTF-8 bytes. -/
def utf8EncodeChar (c : Char) : List Nat :=
  let n := c.toNat
  if n < 0x80 then [n]
  else if n < 0x800 then [0xC0 + n / 0x40, 0x80 + n % 0x40]
  else if n < 0x10000 then
    [0xE0 + n / 0x1000, 0x80 + (n / 0x40) % 0x40, 0x80 + n % 0x40]
  else
    [0xF0 + n / 0x40000, 0x80 + (n / 0x1000) % 0x40,
     0x80 + (n / 0x40) % 0x40, 0x80 + n % 0x40]

/-- Encode a string as UTF-8 bytes (the transport applied on `XADD`). -/
def utf8Encode (s : String) : ByteStr :=
  s.data.flatMap utf8EncodeChar


/-- Decode one UTF-8 scalar from leading byte `b` and remaining bytes `bs`.
Returns the character and the unconsumed bytes; `none` on an invalid
sequence (overlong form, surrogate, out-of-range, truncation). -/
def utf8First (b : Nat) (bs : List Nat) : Option (Char × List Nat) :=
  if b < 0x80 then some (Char.ofNat b, bs)
  else if b < 0xC2 then none
  else if b < 0xE0 then
    match bs with
    | b1 :: bs1 =>
      if 0x80 ≤ b1 ∧ b1 < 0xC0 then
        some (Char.ofNat ((b - 0xC0) * 0x40 + (b1 - 0x80)), bs1)
      else none
    | [] => none
  else if b < 0xF0 then
    match bs with
    | b1 :: b2 :: bs2 =>
      if (0x80 ≤ b1 ∧ b1 < 0xC0) ∧ (0x80 ≤ b2 ∧ b2 < 0xC0) ∧
          (b = 0xE0 → 0xA0 ≤ b1) ∧ (b = 0xED → b1 < 0xA0) then
        some (Char.ofNat ((b - 0xE0) * 0x1000 + (b1 - 0x80) * 0x40 + (b2 - 0x80)), bs2)
      else none
    | _ => none
  else if b < 0xF5 then
    match bs with
    | b1 :: b2 :: b3 :: bs3 =>
      if (0x80 ≤ b1 ∧ b1 < 0xC0) ∧ (0x80 ≤ b2 ∧ b2 < 0xC0) ∧ (0x80 ≤ b3 ∧ b3 < 0xC0) ∧
          (b = 0xF0 → 0x90 ≤ b1) ∧ (b = 0xF4 → b1 < 0x90) then
        some (Char.ofNat ((b - 0xF0) * 0x40000 + (b1 - 0x80) * 0x1000 +
          (b2 - 0x80) * 0x40 + (b3 - 0x80)), bs3)
      else none
    | _ => none
  else none

/-- A decoded scalar never leaves more bytes than it was given. -/
theorem utf8First_length {b : Nat} {bs : List Nat} {c : Char} {rest : List Nat}
    (h : utf8First b bs = some (c, rest)) : rest.length ≤ bs.length := by
  unfold utf8First at h
  split_ifs at h
  · simp only [Option.some.injEq, Prod.mk.injEq] at h
    rw [← h.2]
  · revert h
    split
    · intro h
      split_ifs at h
      simp only [Option.some.injEq, Prod.mk.injEq] at h
      rw [← h.2]
      simp
    · intro h; cases h
  · revert h
    split
    · intro h
      split_ifs at h
      simp only [Option.some.injEq, Prod.mk.injEq] at h
      rw [← h.2]
      simp
      omega
    · intro h; cases h
  · revert h
    split
    · intro h
      split_ifs at h
      simp only [Option.some.injEq, Prod.mk.injEq] at h
      rw [← h.2]
      simp
      omega
    · intro h; cases h

/-- Decode UTF-8 bytes into characters; `none` models `UnicodeDecodeError`.
Follows the standard table (via `utf8First`): rejects overlong forms,
surrogates and code points above `0x10FFFF`, as CPython's strict decoder
does. -/
def utf8DecodeChars : List Nat → Option (List Char)
  | [] => some []
  | b :: bs =>
    match h : utf8First b bs with
    | some (c, rest) => (utf8DecodeChars rest).map (fun cs => c :: cs)
    | none => none
termination_by l => l.length
decreasing_by
  simp only [List.length_cons]
  have := utf8First_length h
  omega

/-- Python `bytes.decode()`: strict UTF-8, `UnicodeDecodeError` on failure. -/
def utf8Decode (bs : ByteStr) : Except PyErr String :=
  match utf8DecodeChars bs with
  | some cs => .ok (String.mk cs)
  | none => .error .unicodeDecodeError

/-- The encoding of a character followed by any byte tail decodes its first
scalar back to exactly that character. -/
theorem utf8First_encode (c : Char) (rest : List Nat) :
    ∃ b bs, utf8EncodeChar c ++ rest = b :: bs ∧ utf8First b bs = some (c, rest) := by
  have hv : c.toNat < 0xD800 ∨ (0xE000 ≤ c.toNat ∧ c.toNat < 0x110000) := c.valid
  have hofnat := Char.ofNat_toNat c
  unfold utf8EncodeChar
  by_cases h1 : c.toNat < 0x80
  · rw [if_pos h1]
    refine ⟨c.toNat, rest, rfl, ?_⟩
    unfold utf8First
    rw [if_pos h1, hofnat]
  · by_cases h2 : c.toNat < 0x800
    · rw [if_neg h1, if_pos h2]
      refine ⟨_, _, rfl, ?_⟩
      unfold utf8First
      rw [if_neg (by omega), if_neg (by omega), if_pos (by omega : 0xC0 + c.toNat / 0x40 < 0xE0)]
      simp only [List.append_eq, List.cons_append, List.nil_append]
      rw [if_pos (by omega : (0x80:Nat) ≤ 0x80 + c.toNat % 0x40 ∧ 0x80 + c.toNat % 0x40 < 0xC0)]
      have harg : (0xC0 + c.toNat / 0x40 - 0xC0) * 0x40 + (0x80 + c.toNat % 0x40 - 0x80)
          = c.toNat := by omega
      rw [harg, hofnat]
    · by_cases h3 : c.toNat < 0x10000
      · rw [if_neg h1, if_neg h2, if_pos h3]
        refine ⟨_, _, rfl, ?_⟩
        unfold utf8First
        rw [if_neg (by omega), if_neg (by omega), if_neg (by omega),
          if_pos (by omega : 0xE0 + c.toNat / 0x1000 < 0xF0)]
        simp only [List.append_eq, List.cons_append, List.nil_append]
        rw [if_pos ⟨⟨by omega, by omega⟩, ⟨by omega, by omega⟩, by omega, by omega⟩]
        have harg : (0xE0 + c.toNat / 0x1000 - 0xE0) * 0x1000 +
            (0x80 + c.toNat / 0x40 % 0x40 - 0x80) * 0x40 +
            (0x80 + c.toNat % 0x40 - 0x80) = c.toNat := by omega
        rw [harg, hofnat]
      · have h4 : c.toNat < 0x110000 := by omega
        rw [if_neg h1, if_neg h2, if_neg h3]
        refine ⟨_, _, rfl, ?_⟩
        unfold utf8First
        rw [if_neg (by omega), if_neg (by omega), if_neg (by omega), if_neg (by omega),
          if_pos (by omega : 0xF0 + c.toNat / 0x40000 < 0xF5)]
        simp only [List.append_eq, List.cons_append, List.nil_append]
        rw [if_pos ⟨⟨by omega, by omega⟩, ⟨by omega, by omega⟩, ⟨by omega, by omega⟩, by omega, by omega⟩]
        have harg : (0xF0 + c.toNat / 0x40000 - 0xF0) * 0x40000 +
            (0x80 + c.toNat / 0x1000 % 0x40 - 0x80) * 0x1000 +
            (0x80 + c.toNat / 0x40 % 0x40 - 0x80) * 0x40 +
            (0x80 + c.toNat % 0x40 - 0x80) = c.toNat := by omega
        rw [harg, hofnat]

/-- Decoding the UTF-8 encoding of one character in front of any byte tail
peels off exactly that character. -/
theorem utf8DecodeChars_encodeChar (c : Char) (rest : List Nat) :
    utf8DecodeChars (utf8EncodeChar c ++ rest) =
      (utf8DecodeChars rest).map (fun cs => c :: cs) := by
  obtain ⟨b, bs, hcons, hfirst⟩ := utf8First_encode c rest
  rw [hcons]
  conv_lhs => unfold utf8DecodeChars
  split
  · rename_i c' rest' heq
    rw [hfirst] at heq
    simp only [Option.some.injEq, Prod.mk.injEq] at heq
    rw [heq.1, heq.2]
  · rename_i heq
    rw [hfirst] at heq
    cases heq

/-- Decoding the UTF-8 encoding of a character list in front of any byte tail
peels off exactly those characters. -/
theorem utf8DecodeChars_flatMap (s : List Char) (rest : List Nat) :
    utf8DecodeChars (s.flatMap utf8EncodeChar ++ rest) =
      (utf8DecodeChars rest).map (fun cs => s ++ cs) := by
  induction s with
  | nil => simp
  | cons c cs ih =>
    rw [List.flatMap_cons, List.append_assoc, utf8DecodeChars_encodeChar, ih]
    cases utf8DecodeChars rest <;> simp

/-- Round trip: UTF-8 decoding inverts UTF-8 encoding (so the byte transport
between `to_redis_fields` and `from_redis_fields` is lossless). -/
theorem utf8Decode_encode (s : String) : utf8Decode (utf8Encode s) = .ok s := by
  have h := utf8DecodeChars_flatMap s.data []
  rw [List.append_nil] at h
  have h0 : utf8DecodeChars [] = some [] := by simp [utf8DecodeChars]
  rw [h0] at h
  have h1 : (some ([] : List Char)).map (fun cs => s.data ++ cs) = some s.data := by
    simp
  rw [h1] at h
  unfold utf8Decode utf8Encode
  rw [h]

/-! ## JSON (model of Python `json.dumps` / `json.loads`)

`to_redis_fields` serialises the payload with `json.dumps(self.payload)`
(default settings: `ensure_ascii=True`, separators `", "` and `": "`), and
`from_redis_fields` parses with `json.loads`.  The value model covers the
JSON fragment with integer numbers; floats and lone surrogates are outside
the model (noted where relevant). -/

/-- JSON values (payloads).  Objects keep their fields in insertion order,
as Python dicts and `json.dumps` do. -/
inductive JVal where
  | null
  | bool (b : Bool)
  | int (n : Int)
  | str (s : String)
  | arr (xs : List JVal)
  | obj (fs : List (String × JVal))

/-- The opening-brace character, `0x7B`. -/
def lbraceC : Char := Char.ofNat 0x7B

/-- The closing-brace character, `0x7D`. -/
def rbraceC : Char := Char.ofNat 0x7D

/-- Decimal digit to character. -/
def digitChar (d : Nat) : Char := Char.ofNat (48 + d)

/-- Lowercase hexadecimal digit to character (as `format(n, "04x")`). -/
def hexChar (d : Nat) : Char := Char.ofNat (if d < 10 then 48 + d else 87 + d)

/-- Four lowercase hex digits of `n < 0x10000`, most significant first. -/
def hex4 (n : Nat) : List Char :=
  [hexChar (n / 0x1000 % 16), hexChar (n / 0x100 % 16), hexChar (n / 16 % 16), hexChar (n % 16)]

/-- `json.dumps` escaping of one character with `ensure_ascii=True`:
the two-character escapes for the specials, printable ASCII verbatim,
and `\uXXXX` (a surrogate pair above the BMP) for everything else. -/
def escapeChar (c : Char) : List Char :=
  if c = '"' then ['\\', '"']
  else if c = '\\' then ['\\', '\\']
  else if c = '\n' then ['\\', 'n']
  else if c = '\t' then ['\\', 't']
  else if c = '\r' then ['\\', 'r']
  else if c.toNat = 8 then ['\\', 'b']
  else if c.toNat = 12 then ['\\', 'f']
  else if 0x20 ≤ c.toNat ∧ c.toNat < 0x7F then [c]
  else if c.toNat < 0x10000 then '\\' :: 'u' :: hex4 c.toNat
  else
    ('\\' :: 'u' :: hex4 (0xD800 + (c.toNat - 0x10000) / 0x400)) ++
      ('\\' :: 'u' :: hex4 (0xDC00 + (c.toNat - 0x10000) % 0x400))

/-- `json.dumps` of a string: quoted, with each character escaped. -/
def dumpsStr (s : String) : List Char :=
  '"' :: s.data.flatMap escapeChar ++ ['"']

/-- Decimal digits of `n`, given recursion fuel (`fuel ≥ n` suffices). -/
def natDigsAux : Nat → Nat → List Char
  | 0, _ => []
  | fuel + 1, n => if n = 0 then [] else natDigsAux fuel (n / 10) ++ [digitChar (n % 10)]

/-- Decimal digits of a natural number, as Python prints it. -/
def natDigs (n : Nat) : List Char :=
  if n = 0 then ['0'] else natDigsAux n n

/-- Decimal text of an integer, as Python prints it. -/
def intDigs (n : Int) : List Char :=
  if n < 0 then '-' :: natDigs n.natAbs else natDigs n.toNat

mutual

/-- `json.dumps` with its default separators (`", "` between items,
`": "` after keys) and `ensure_ascii=True`. -/
def dumpsVal : JVal → List Char
  | .null => 'n' :: ['u', 'l', 'l']
  | .bool true => 't' :: ['r', 'u', 'e']
  | .bool false => 'f' :: ['a', 'l', 's', 'e']
  | .int n => intDigs n
  | .str s => dumpsStr s
  | .arr [] => ['[', ']']
  | .arr (x :: xs) => '[' :: (dumpsVal x ++ dumpsElems xs ++ [']'])
  | .obj [] => [lbraceC, rbraceC]
  | .obj (f :: fs) => lbraceC :: (dumpsStr f.1 ++ ':' :: ' ' :: dumpsVal f.2 ++ dumpsFields fs ++ [rbraceC])

/-- Remaining array elements, each preceded by `", "`. -/
def dumpsElems : List JVal → List Char
  | [] => []
  | x :: xs => ',' :: ' ' :: (dumpsVal x ++ dumpsElems xs)

/-- Remaining object fields, each preceded by `", "`, key-colon-value. -/
def dumpsFields : List (String × JVal) → List Char
  | [] => []
  | f :: fs => ',' :: ' ' :: (dumpsStr f.1 ++ ':' :: ' ' :: dumpsVal f.2 ++ dumpsFields fs)

end

/-- JSON whitespace (the characters `json.loads` skips between tokens). -/
def isWs (c : Char) : Bool :=
  c = ' ' || c = '\t' || c = '\n' || c = '\r'

/-- Drop leading JSON whitespace. -/
def skipWs : List Char → List Char
  | [] => []
  | c :: cs => if isWs c then skipWs cs else c :: cs

/-- Parse one hex digit (both cases accepted, as Python does). -/
def parseHexDigit (c : Char) : Option Nat :=
  if 48 ≤ c.toNat ∧ c.toNat ≤ 57 then some (c.toNat - 48)
  else if 97 ≤ c.toNat ∧ c.toNat ≤ 102 then some (c.toNat - 87)
  else if 65 ≤ c.toNat ∧ c.toNat ≤ 70 then some (c.toNat - 55)
  else none

/-- Combine four hex digit characters into their value. -/
def hex4Val (c1 c2 c3 c4 : Char) : Option Nat :=
  match parseHexDigit c1, parseHexDigit c2, parseHexDigit c3, parseHexDigit c4 with
  | some d1, some d2, some d3, some d4 => some (d1 * 0x1000 + d2 * 0x100 + d3 * 16 + d4)
  | _, _, _, _ => none

/-- Decode a short (two-character) escape, as `json.loads` does
(including the solidus `\/`). -/
def escShort (e : Char) : Option Char :=
  if e = '"' then some '"'
  else if e = '\\' then some '\\'
  else if e = '/' then some '/'
  else if e = 'b' then some (Char.ofNat 8)
  else if e = 'f' then some (Char.ofNat 12)
  else if e = 'n' then some '\n'
  else if e = 'r' then some '\r'
  else if e = 't' then some '\t'
  else none

/-- One token inside a JSON string literal. -/
inductive StrTok where
  | done
  | ch (c : Char)

/-- Consume one string-literal token: the closing quote, an escape
(`\uXXXX` pairs of surrogates are combined, as `json.loads` does), or a
plain character.  Raw control characters are rejected (strict mode).
Lone surrogate escapes are rejected here (a Lean `Char` cannot carry
them; CPython would produce a degenerate `str`). -/
def parseStrTok : List Char → Option (StrTok × List Char)
  | [] => none
  | c :: cs =>
    if c = '"' then some (.done, cs)
    else if c = '\\' then
      match cs with
      | [] => none
      | e :: cs1 =>
        if e = 'u' then
          match cs1 with
          | c1 :: c2 :: c3 :: c4 :: cs2 =>
            match hex4Val c1 c2 c3 c4 with
            | none => none
            | some n =>
              if 0xD800 ≤ n ∧ n < 0xDC00 then
                match cs2 with
                | a :: b :: d1 :: d2 :: d3 :: d4 :: cs3 =>
                  if a = '\\' ∧ b = 'u' then
                    match hex4Val d1 d2 d3 d4 with
                    | none => none
                    | some m =>
                      if 0xDC00 ≤ m ∧ m < 0xE000 then
                        some (.ch (Char.ofNat (0x10000 + (n - 0xD800) * 0x400 + (m - 0xDC00))), cs3)
                      else none
                  else none
                | _ => none
              else if 0xDC00 ≤ n ∧ n < 0xE000 then none
              else some (.ch (Char.ofNat n), cs2)
          | _ => none
        else
          match escShort e with
          | some d => some (.ch d, cs1)
          | none => none
    else if c.toNat < 0x20 then none
    else some (.ch c, cs)

/-- A string-literal token always consumes at least one character. -/
theorem parseStrTok_length {cs : List Char} {t : StrTok} {rest : List Char}
    (h : parseStrTok cs = some (t, rest)) : rest.length < cs.length := by
  match cs with
  | [] => cases h
  | c :: cs' =>
    unfold parseStrTok at h
    dsimp only at h
    repeat' split at h
    all_goals (cases h <;> (simp only [List.length_cons]; omega))

/-- Parse the body of a JSON string literal (after the opening quote):
the characters up to the closing quote, and the remaining input. -/
def parseStrBody (cs : List Char) : Option (List Char × List Char) :=
  match h : parseStrTok cs with
  | some (.done, rest) => some ([], rest)
  | some (.ch c, rest) => (parseStrBody rest).map (fun p => (c :: p.1, p.2))
  | none => none
termination_by cs.length
decreasing_by
  exact parseStrTok_length h

/-- Accumulate decimal digits (`int` parsing inside `json.loads`). -/
def parseNatAux : List Char → Nat → Nat × List Char
  | [], acc => (acc, [])
  | c :: cs, acc =>
    if 48 ≤ c.toNat ∧ c.toNat ≤ 57 then parseNatAux cs (acc * 10 + (c.toNat - 48))
    else (acc, c :: cs)

/-- Parse a natural number token (at least one digit).  The model accepts
leading zeros, which strict JSON rejects; `json.dumps` never emits them,
so the round trip is unaffected. -/
def parseNatTok : List Char → Option (Nat × List Char)
  | [] => none
  | c :: cs =>
    if 48 ≤ c.toNat ∧ c.toNat ≤ 57 then some (parseNatAux cs (c.toNat - 48))
    else none

/-- After an array element: skip whitespace, then a comma means another
element follows (`true`) and a closing bracket ends the array (`false`). -/
def afterElem (cs : List Char) : Option (Bool × List Char) :=
  match skipWs cs with
  | c :: rest =>
    if c = ',' then some (true, rest)
    else if c = ']' then some (false, rest)
    else none
  | [] => none

/-- After an object field: skip whitespace, then a comma means another
field follows (`true`) and a closing brace ends the object (`false`). -/
def afterField (cs : List Char) : Option (Bool × List Char) :=
  match skipWs cs with
  | c :: rest =>
    if c = ',' then some (true, rest)
    else if c = rbraceC then some (false, rest)
    else none
  | [] => none

/-- Parse an object key and its following colon: whitespace, a string
literal, whitespace, `:`. -/
def parseKey (cs : List Char) : Option (String × List Char) :=
  match skipWs cs with
  | c :: rest =>
    if c = '"' then
      match parseStrBody rest with
      | some (body, rest1) =>
        match skipWs rest1 with
        | d :: rest2 => if d = ':' then some (String.mk body, rest2) else none
        | [] => none
      | none => none
    else none
  | [] => none

mutual

/-- Recursive-descent `json.loads` value parser, fuelled (callers pass
fuel at least the input length; the round-trip theorems quantify over
sufficient fuel).  Literals `null`, `true`, `false`, integers, strings,
arrays and objects; whitespace is skipped before each token.  Python's
optional `NaN`/`Infinity` literals and float syntax are outside the
integer-number model. -/
def parseVal : Nat → List Char → Option (JVal × List Char)
  | 0, _ => none
  | fuel + 1, input =>
    match skipWs input with
    | [] => none
    | c :: cs =>
      if c = 'n' then
        match cs with
        | c1 :: c2 :: c3 :: rest =>
          if c1 = 'u' ∧ c2 = 'l' ∧ c3 = 'l' then some (.null, rest) else none
        | _ => none
      else if c = 't' then
        match cs with
        | c1 :: c2 :: c3 :: rest =>
          if c1 = 'r' ∧ c2 = 'u' ∧ c3 = 'e' then some (.bool true, rest) else none
        | _ => none
      else if c = 'f' then
        match cs with
        | c1 :: c2 :: c3 :: c4 :: rest =>
          if c1 = 'a' ∧ c2 = 'l' ∧ c3 = 's' ∧ c4 = 'e' then some (.bool false, rest) else none
        | _ => none
      else if c = '"' then
        match parseStrBody cs with
        | some (body, rest) => some (.str (String.mk body), rest)
        | none => none
      else if c = '-' then
        match parseNatTok cs with
        | some (n, rest) => some (.int (-(n : Int)), rest)
        | none => none
      else if 48 ≤ c.toNat ∧ c.toNat ≤ 57 then
        match parseNatTok (c :: cs) with
        | some (n, rest) => some (.int (n : Int), rest)
        | none => none
      else if c = '[' then
        match skipWs cs with
        | [] => none
        | d :: ds =>
          if d = ']' then some (.arr [], ds)
          else
            match parseElems fuel (d :: ds) with
            | some (xs, rest) => some (.arr xs, rest)
            | none => none
      else if c = lbraceC then
        match skipWs cs with
        | [] => none
        | d :: ds =>
          if d = rbraceC then some (.obj [], ds)
          else
            match parseFields fuel (d :: ds) with
            | some (fs, rest) => some (.obj fs, rest)
            | none => none
      else none

/-- One or more array elements separated by commas, ending at `]`. -/
def parseElems : Nat → List Char → Option (List JVal × List Char)
  | 0, _ => none
  | fuel + 1, input =>
    match parseVal fuel input with
    | none => none
    | some (v, rest) =>
      match afterElem rest with
      | some (true, rest1) =>
        match parseElems fuel rest1 with
        | some (vs, rest2) => some (v :: vs, rest2)
        | none => none
      | some (false, rest1) => some ([v], rest1)
      | none => none

/-- One or more object fields separated by commas, ending at the brace. -/
def parseFields : Nat → List Char → Option (List (String × JVal) × List Char)
  | 0, _ => none
  | fuel + 1, input =>
    match parseKey input with
    | none => none
    | some (k, rest) =>
      match parseVal fuel rest with
      | none => none
      | some (v, rest1) =>
        match afterField rest1 with
        | some (true, rest2) =>
          match parseFields fuel rest2 with
          | some (fs, rest3) => some ((k, v) :: fs, rest3)
          | none => none
        | some (false, rest2) => some ([(k, v)], rest2)
        | none => none

end

/-- `json.loads`: parse one value, then require only whitespace to
remain (Python raises `JSONDecodeError` otherwise — modelled as `none`). -/
def loads (s : String) : Option JVal :=
  match parseVal (s.data.length + 1) s.data with
  | some (v, rest) => if skipWs rest = [] then some v else none
  | none => none

/-- Characters built from valid code points read back their code point. -/
theorem toNat_ofNat_valid (n : Nat) (h : n.isValidChar) : (Char.ofNat n).toNat = n := by
  unfold Char.ofNat
  rw [dif_pos h]
  unfold Char.ofNatAux Char.toNat
  simp only [UInt32.toNat, BitVec.toNat_ofNatLt]

/-- Special case of `toNat_ofNat_valid` below the surrogate range. -/
theorem toNat_ofNat_small {n : Nat} (h : n < 0xD800) : (Char.ofNat n).toNat = n :=
  toNat_ofNat_valid n (Or.inl h)

/-- The head of the remaining input is not a decimal digit (so number
parsing stops there). -/
def digitFreeHead : List Char → Prop
  | [] => True
  | c :: _ => ¬(48 ≤ c.toNat ∧ c.toNat ≤ 57)

/-- `digitChar` produces the expected code point. -/
theorem digitChar_toNat (d : Nat) : (digitChar d).toNat = 48 + d ∨ 0xD800 ≤ 48 + d := by
  by_cases h : 48 + d < 0xD800
  · exact Or.inl (toNat_ofNat_small h)
  · exact Or.inr (by omega)

/-- Every character `natDigsAux` emits is a decimal digit. -/
theorem natDigsAux_digits : ∀ (fuel n : Nat), ∀ c ∈ natDigsAux fuel n,
    48 ≤ c.toNat ∧ c.toNat ≤ 57 := by
  intro fuel
  induction fuel with
  | zero => intro n c hc; cases hc
  | succ f ih =>
    intro n c hc
    unfold natDigsAux at hc
    by_cases h0 : n = 0
    · rw [if_pos h0] at hc; cases hc
    · rw [if_neg h0] at hc
      rcases List.mem_append.mp hc with hm | hm
      · exact ih _ c hm
      · have : c = digitChar (n % 10) := by
          cases hm with
          | head => rfl
          | tail _ hh => cases hh
        subst this
        have : (digitChar (n % 10)).toNat = 48 + n % 10 :=
          toNat_ofNat_small (by omega)
        omega

/-- With positive fuel and a positive number, at least one digit is
emitted. -/
theorem natDigsAux_ne_nil {fuel n : Nat} (hf : fuel ≠ 0) (hn : n ≠ 0) :
    natDigsAux fuel n ≠ [] := by
  match fuel with
  | f + 1 =>
    unfold natDigsAux
    rw [if_neg hn]
    simp

/-- Parsing stops immediately at a non-digit (or the end of input). -/
theorem parseNatAux_nondigit (rest : List Char) (acc : Nat) (h : digitFreeHead rest) :
    parseNatAux rest acc = (acc, rest) := by
  match rest with
  | [] => rfl
  | c :: cs =>
    unfold parseNatAux
    rw [if_neg h]

/-- Consuming the printed digits of `n` multiplies the accumulator by the
corresponding power of ten and adds `n`. -/
theorem parseNatAux_append : ∀ (fuel n : Nat), n ≤ fuel → ∀ (rest : List Char) (acc : Nat),
    parseNatAux (natDigsAux fuel n ++ rest) acc
      = parseNatAux rest (acc * 10 ^ (natDigsAux fuel n).length + n) := by
  intro fuel
  induction fuel with
  | zero =>
    intro n hn rest acc
    have h0 : n = 0 := by omega
    subst h0
    simp [natDigsAux]
  | succ f ih =>
    intro n hn rest acc
    by_cases h0 : n = 0
    · subst h0
      simp [natDigsAux]
    · conv_lhs => unfold natDigsAux
      conv_rhs => unfold natDigsAux
      rw [if_neg h0]
      rw [List.append_assoc, List.singleton_append]
      rw [ih (n / 10) (by omega) (digitChar (n % 10) :: rest) acc]
      have hdig : (digitChar (n % 10)).toNat = 48 + n % 10 :=
        toNat_ofNat_small (by omega)
      conv_lhs => unfold parseNatAux
      rw [if_pos (by omega)]
      rw [hdig]
      congr 1
      rw [List.length_append, List.length_singleton, pow_add, pow_one, ← mul_assoc]
      generalize acc * 10 ^ (natDigsAux f (n / 10)).length = A
      omega

/-- Parsing the printed digits of a natural number, followed by a
non-digit, returns exactly that number. -/
theorem parseNatTok_digs (n : Nat) (rest : List Char) (h : digitFreeHead rest) :
    parseNatTok (natDigs n ++ rest) = some (n, rest) := by
  unfold natDigs
  by_cases h0 : n = 0
  · rw [if_pos h0]
    subst h0
    simp only [List.cons_append, List.nil_append]
    unfold parseNatTok
    try dsimp only
    rw [if_pos (by decide : 48 ≤ Char.toNat '0' ∧ Char.toNat '0' ≤ 57)]
    rw [parseNatAux_nondigit rest _ h]
    have h48 : Char.toNat '0' = 48 := rfl
    rw [h48]

  · rw [if_neg h0]
    obtain ⟨c, cs, hcons⟩ : ∃ c cs, natDigsAux n n = c :: cs := by
      cases hh : natDigsAux n n with
      | nil => exact absurd hh (natDigsAux_ne_nil h0 h0)
      | cons c cs => exact ⟨c, cs, rfl⟩
    have hcdig : 48 ≤ c.toNat ∧ c.toNat ≤ 57 :=
      natDigsAux_digits n n c (hcons ▸ List.mem_cons_self c cs)
    have hfull : parseNatAux (natDigsAux n n ++ rest) 0 = (n, rest) := by
      rw [parseNatAux_append n n le_rfl rest 0]
      rw [parseNatAux_nondigit rest _ h]
      norm_num
    rw [hcons] at hfull
    rw [hcons]
    simp only [List.cons_append] at hfull ⊢
    unfold parseNatTok
    try dsimp only
    rw [if_pos hcdig]
    conv_lhs at hfull => unfold parseNatAux
    rw [if_pos hcdig] at hfull
    rw [Nat.zero_mul, Nat.zero_add] at hfull
    rw [hfull]

/-- A printed hex digit parses back to its value. -/
theorem parseHexDigit_hexChar (d : Nat) (h : d < 16) :
    parseHexDigit (hexChar d) = some d := by
  unfold hexChar parseHexDigit
  by_cases h10 : d < 10
  · rw [if_pos h10]
    have ht : (Char.ofNat (48 + d)).toNat = 48 + d := toNat_ofNat_small (by omega)
    rw [ht, if_pos (by omega)]
    congr 1
    omega
  · rw [if_neg h10]
    have ht : (Char.ofNat (87 + d)).toNat = 87 + d := toNat_ofNat_small (by omega)
    rw [ht, if_neg (by omega), if_pos (by omega)]
    congr 1
    omega

/-- Four printed hex digits parse back to the printed value. -/
theorem hex4Val_hex4 (n : Nat) (h : n < 0x10000) :
    hex4Val (hexChar (n / 0x1000 % 16)) (hexChar (n / 0x100 % 16))
      (hexChar (n / 16 % 16)) (hexChar (n % 16)) = some n := by
  unfold hex4Val
  rw [parseHexDigit_hexChar _ (by omega), parseHexDigit_hexChar _ (by omega),
    parseHexDigit_hexChar _ (by omega), parseHexDigit_hexChar _ (by omega)]
  try dsimp only
  congr 1
  omega

/-- The closing quote produces the `done` token. -/
theorem parseStrTok_quote (rest : List Char) :
    parseStrTok ('"' :: rest) = some (.done, rest) := by
  unfold parseStrTok
  try dsimp only
  rw [if_pos rfl]

/-- A surrogate-pair escape (the form `json.dumps` emits for characters
above the BMP) parses back to the original character. -/
theorem parseStrTok_pairEscape (c : Char) (rest : List Char)
    (hv : c.toNat < 0xD800 ∨ (0xE000 ≤ c.toNat ∧ c.toNat < 0x110000))
    (hofnat : Char.ofNat c.toNat = c)
    (h9 : ¬ c.toNat < 0x10000) :
    parseStrTok (('\\' :: 'u' :: hex4 (0xD800 + (c.toNat - 0x10000) / 0x400)) ++
      (('\\' :: 'u' :: hex4 (0xDC00 + (c.toNat - 0x10000) % 0x400)) ++ rest))
      = some (.ch c, rest) := by
  have e1 := hex4Val_hex4 (0xD800 + (c.toNat - 0x10000) / 0x400) (by omega)
  have e2 := hex4Val_hex4 (0xDC00 + (c.toNat - 0x10000) % 0x400) (by omega)
  unfold hex4
  simp only [List.cons_append, List.nil_append, List.append_assoc]
  obtain ⟨x1, hx1⟩ : ∃ x, hexChar ((0xD800 + (c.toNat - 0x10000) / 0x400) / 0x1000 % 16) = x :=
    ⟨_, rfl⟩
  obtain ⟨x2, hx2⟩ : ∃ x, hexChar ((0xD800 + (c.toNat - 0x10000) / 0x400) / 0x100 % 16) = x :=
    ⟨_, rfl⟩
  obtain ⟨x3, hx3⟩ : ∃ x, hexChar ((0xD800 + (c.toNat - 0x10000) / 0x400) / 16 % 16) = x :=
    ⟨_, rfl⟩
  obtain ⟨x4, hx4⟩ : ∃ x, hexChar ((0xD800 + (c.toNat - 0x10000) / 0x400) % 16) = x :=
    ⟨_, rfl⟩
  obtain ⟨y1, hy1⟩ : ∃ x, hexChar ((0xDC00 + (c.toNat - 0x10000) % 0x400) / 0x1000 % 16) = x :=
    ⟨_, rfl⟩
  obtain ⟨y2, hy2⟩ : ∃ x, hexChar ((0xDC00 + (c.toNat - 0x10000) % 0x400) / 0x100 % 16) = x :=
    ⟨_, rfl⟩
  obtain ⟨y3, hy3⟩ : ∃ x, hexChar ((0xDC00 + (c.toNat - 0x10000) % 0x400) / 16 % 16) = x :=
    ⟨_, rfl⟩
  obtain ⟨y4, hy4⟩ : ∃ x, hexChar ((0xDC00 + (c.toNat - 0x10000) % 0x400) % 16) = x :=
    ⟨_, rfl⟩
  rw [hx1] at e1 ⊢
  rw [hx2] at e1 ⊢
  rw [hx3] at e1 ⊢
  rw [hx4] at e1 ⊢
  rw [hy1] at e2 ⊢
  rw [hy2] at e2 ⊢
  rw [hy3] at e2 ⊢
  rw [hy4] at e2 ⊢
  unfold parseStrTok
  try dsimp only
  rw [if_neg (by decide), if_pos rfl]
  try dsimp only
  rw [if_pos rfl]
  rw [e1]
  try dsimp only
  rw [if_pos (by omega)]
  rw [if_pos (And.intro rfl rfl)]
  rw [e2]
  try dsimp only
  rw [if_pos (by omega)]
  have harg : 0x10000 +
      (0xD800 + (c.toNat - 0x10000) / 0x400 - 0xD800) * 0x400 +
      (0xDC00 + (c.toNat - 0x10000) % 0x400 - 0xDC00) = c.toNat := by
    omega
  rw [harg, hofnat]

/-- The `json.dumps` escape of any character, in front of any tail, is
read back as exactly that character. -/
theorem parseStrTok_escapeChar (c : Char) (rest : List Char) :
    parseStrTok (escapeChar c ++ rest) = some (.ch c, rest) := by
  have hv : c.toNat < 0xD800 ∨ (0xE000 ≤ c.toNat ∧ c.toNat < 0x110000) := c.valid
  have hofnat := Char.ofNat_toNat c
  unfold escapeChar
  by_cases h1 : c = '"'
  · subst h1
    rw [if_pos rfl]
    simp only [List.cons_append, List.nil_append]
    unfold parseStrTok
    try dsimp only
    rw [if_neg (by decide : ¬('\\' : Char) = '"'), if_pos rfl]
    try dsimp only
    rw [if_neg (by decide : ¬('"' : Char) = 'u')]
    have he : escShort '"' = some ('"') := rfl
    rw [he]
  · rw [if_neg h1]
    by_cases h2 : c = '\\'
    · subst h2
      rw [if_pos rfl]
      simp only [List.cons_append, List.nil_append]
      unfold parseStrTok
      try dsimp only
      rw [if_neg (by decide : ¬('\\' : Char) = '"'), if_pos rfl]
      try dsimp only
      rw [if_neg (by decide : ¬('\\' : Char) = 'u')]
      have he : escShort '\\' = some ('\\') := rfl
      rw [he]
    · rw [if_neg h2]
      by_cases h3 : c = '\n'
      · subst h3
        rw [if_pos rfl]
        simp only [List.cons_append, List.nil_append]
        unfold parseStrTok
        try dsimp only
        rw [if_neg (by decide : ¬('\\' : Char) = '"'), if_pos rfl]
        try dsimp only
        rw [if_neg (by decide : ¬('n' : Char) = 'u')]
        have he : escShort 'n' = some ('\n') := rfl
        rw [he]
      · rw [if_neg h3]
        by_cases h4 : c = '\t'
        · subst h4
          rw [if_pos rfl]
          simp only [List.cons_append, List.nil_append]
          unfold parseStrTok
          try dsimp only
          rw [if_neg (by decide : ¬('\\' : Char) = '"'), if_pos rfl]
          try dsimp only
          rw [if_neg (by decide : ¬('t' : Char) = 'u')]
          have he : escShort 't' = some ('\t') := rfl
          rw [he]
        · rw [if_neg h4]
          by_cases h5 : c = '\r'
          · subst h5
            rw [if_pos rfl]
            simp only [List.cons_append, List.nil_append]
            unfold parseStrTok
            try dsimp only
            rw [if_neg (by decide : ¬('\\' : Char) = '"'), if_pos rfl]
            try dsimp only
            rw [if_neg (by decide : ¬('r' : Char) = 'u')]
            have he : escShort 'r' = some ('\r') := rfl
            rw [he]
          · rw [if_neg h5]
            by_cases h6 : c.toNat = 8
            · rw [if_pos h6]
              have : c = Char.ofNat 8 := by
                rw [← h6, hofnat]
              rw [this]
              simp only [List.cons_append, List.nil_append]
              unfold parseStrTok
              try dsimp only
              rw [if_neg (by decide : ¬('\\' : Char) = '"'), if_pos rfl]
              try dsimp only
              rw [if_neg (by decide : ¬('b' : Char) = 'u')]
              have he : escShort 'b' = some (Char.ofNat 8) := rfl
              rw [he]
            · rw [if_neg h6]
              by_cases h7 : c.toNat = 12
              · rw [if_pos h7]
                have : c = Char.ofNat 12 := by
                  rw [← h7, hofnat]
                rw [this]
                simp only [List.cons_append, List.nil_append]
                unfold parseStrTok
                try dsimp only
                rw [if_neg (by decide : ¬('\\' : Char) = '"'), if_pos rfl]
                try dsimp only
                rw [if_neg (by decide : ¬('f' : Char) = 'u')]
                have he : escShort 'f' = some (Char.ofNat 12) := rfl
                rw [he]
              · rw [if_neg h7]
                by_cases h8 : 0x20 ≤ c.toNat ∧ c.toNat < 0x7F
                · rw [if_pos h8]
                  simp only [List.cons_append, List.nil_append]
                  unfold parseStrTok
                  try dsimp only
                  rw [if_neg h1, if_neg h2, if_neg (by omega)]
                · rw [if_neg h8]
                  by_cases h9 : c.toNat < 0x10000
                  · rw [if_pos h9]
                    unfold hex4
                    simp only [List.cons_append, List.nil_append]
                    unfold parseStrTok
                    try dsimp only
                    rw [if_neg (by decide), if_pos rfl]
                    try dsimp only
                    rw [if_pos rfl]
                    rw [hex4Val_hex4 c.toNat h9]
                    try dsimp only
                    rw [if_neg (by omega), if_neg (by omega)]
                    rw [hofnat]
                  · rw [if_neg h9]
                    rw [List.append_assoc]
                    exact parseStrTok_pairEscape c rest hv hofnat h9

/-- The escaped form of a character list, terminated by a quote, parses
back to exactly that list. -/
theorem parseStrBody_escape : ∀ (cs : List Char) (rest : List Char),
    parseStrBody (cs.flatMap escapeChar ++ '"' :: rest) = some (cs, rest) := by
  intro cs
  induction cs with
  | nil =>
    intro rest
    simp only [List.flatMap_nil, List.nil_append]
    conv_lhs => unfold parseStrBody
    rw [parseStrTok_quote]
  | cons c cs ih =>
    intro rest
    rw [List.flatMap_cons, List.append_assoc]
    conv_lhs => unfold parseStrBody
    rw [parseStrTok_escapeChar]
    try dsimp only
    rw [ih rest]
    rfl

mutual

/-- Structural size of a value, used as a fuel lower bound for `parseVal`. -/
def sizeJ : JVal → Nat
  | .null => 1
  | .bool _ => 1
  | .int _ => 1
  | .str _ => 1
  | .arr xs => sizeElemsJ xs + 1
  | .obj fs => sizeFieldsJ fs + 1

/-- Size of an element list. -/
def sizeElemsJ : List JVal → Nat
  | [] => 0
  | x :: xs => sizeJ x + sizeElemsJ xs + 1

/-- Size of a field list. -/
def sizeFieldsJ : List (String × JVal) → Nat
  | [] => 0
  | f :: fs => sizeJ f.2 + sizeFieldsJ fs + 1

end

/-- Sizes are positive. -/
theorem sizeJ_pos (v : JVal) : 1 ≤ sizeJ v := by
  cases v <;> simp [sizeJ]

/-- Every character of `ws` is JSON whitespace. -/
def allWs (ws : List Char) : Prop := ∀ c ∈ ws, isWs c = true

/-- The empty prefix is whitespace. -/
theorem allWs_nil : allWs [] := by
  intro c hc; cases hc

/-- A single space is whitespace. -/
theorem allWs_space : allWs [' '] := by
  intro c hc
  cases hc with
  | head => decide
  | tail _ h => cases h

/-- Skipping whitespace passes over a non-whitespace head unchanged. -/
theorem skipWs_cons_of_not (c : Char) (cs : List Char) (h : isWs c = false) :
    skipWs (c :: cs) = c :: cs := by
  unfold skipWs
  rw [h]
  simp

/-- Skipping whitespace consumes an all-whitespace prefix. -/
theorem skipWs_append_allWs (ws rest : List Char) (h : allWs ws) :
    skipWs (ws ++ rest) = skipWs rest := by
  induction ws with
  | nil => simp
  | cons c cs ih =>
    simp only [List.cons_append]
    have hc := h c (List.mem_cons_self c cs)
    conv_lhs => unfold skipWs
    rw [hc, if_pos rfl]
    exact ih (fun d hd => h d (List.mem_cons_of_mem c hd))

/-- A head outside the digit range keeps the tail digit-free. -/
theorem dfh_cons (c : Char) (r : List Char) (h : c.toNat < 48 ∨ 57 < c.toNat) :
    digitFreeHead (c :: r) := by
  intro hh
  omega

/-- The printed digits of any natural number are nonempty and start with
a digit. -/
theorem natDigs_head (m : Nat) :
    ∃ c t, natDigs m = c :: t ∧ 48 ≤ c.toNat ∧ c.toNat ≤ 57 := by
  unfold natDigs
  by_cases h0 : m = 0
  · rw [if_pos h0]
    exact ⟨'0', [], rfl, by decide, by decide⟩
  · rw [if_neg h0]
    cases hh : natDigsAux m m with
    | nil => exact absurd hh (natDigsAux_ne_nil h0 h0)
    | cons c t =>
      have := natDigsAux_digits m m c (hh ▸ List.mem_cons_self c t)
      exact ⟨c, t, rfl, this.1, this.2⟩

/-- `json.dumps` output is nonempty, starts with a non-whitespace
character, and never starts with a closing bracket. -/
theorem dumpsVal_cons (v : JVal) :
    ∃ c t, dumpsVal v = c :: t ∧ isWs c = false ∧ c ≠ ']' := by
  cases v with
  | null => exact ⟨'n', ['u', 'l', 'l'], by simp [dumpsVal], by decide, by decide⟩
  | bool b =>
    cases b with
    | true => exact ⟨'t', ['r', 'u', 'e'], by simp [dumpsVal], by decide, by decide⟩
    | false => exact ⟨'f', ['a', 'l', 's', 'e'], by simp [dumpsVal], by decide, by decide⟩
  | int n =>
    by_cases hn : n < 0
    · refine ⟨'-', natDigs n.natAbs, ?_, by decide, by decide⟩
      simp [dumpsVal, intDigs, hn]
    · obtain ⟨c, t, hct, h1, h2⟩ := natDigs_head n.toNat
      refine ⟨c, t, ?_, ?_, ?_⟩
      · simp [dumpsVal, intDigs, hn, hct]
      · unfold isWs
        have e1 : c ≠ ' ' := by intro hh; rw [hh] at h1 h2; revert h1; decide
        have e2 : c ≠ '\t' := by intro hh; rw [hh] at h1 h2; revert h1; decide
        have e3 : c ≠ '\n' := by intro hh; rw [hh] at h1 h2; revert h1; decide
        have e4 : c ≠ '\r' := by intro hh; rw [hh] at h1 h2; revert h1; decide
        simp [e1, e2, e3, e4]
      · intro hh; rw [hh] at h2; revert h2; decide
  | str s =>
    exact ⟨'"', s.data.flatMap escapeChar ++ ['"'], by simp [dumpsVal, dumpsStr],
      by decide, by decide⟩
  | arr xs =>
    cases xs with
    | nil => exact ⟨'[', [']'], by simp [dumpsVal], by decide, by decide⟩
    | cons x xs =>
      exact ⟨'[', dumpsVal x ++ dumpsElems xs ++ [']'], by simp [dumpsVal], by decide, by decide⟩
  | obj fs =>
    cases fs with
    | nil => exact ⟨lbraceC, [rbraceC], by simp [dumpsVal], by decide, by decide⟩
    | cons f fs =>
      exact ⟨lbraceC, dumpsStr f.1 ++ ':' :: ' ' :: dumpsVal f.2 ++ dumpsFields fs ++ [rbraceC],
        by simp [dumpsVal], by decide, by decide⟩

/-- What follows a dumped array element starts with a comma or the
closing bracket, never a digit. -/
theorem dfh_elems (xs : List JVal) (r : List Char) :
    digitFreeHead (dumpsElems xs ++ (']' :: r)) := by
  cases xs with
  | nil =>
    simp only [dumpsElems, List.nil_append]
    exact dfh_cons _ _ (by decide)
  | cons y ys =>
    simp only [dumpsElems, List.cons_append]
    exact dfh_cons _ _ (by decide)

/-- What follows a dumped object value starts with a comma or the
closing brace, never a digit. -/
theorem dfh_fields (fs : List (String × JVal)) (r : List Char) :
    digitFreeHead (dumpsFields fs ++ (rbraceC :: r)) := by
  cases fs with
  | nil =>
    simp only [dumpsFields, List.nil_append]
    exact dfh_cons _ _ (by decide)
  | cons g gs =>
    simp only [dumpsFields, List.cons_append]
    exact dfh_cons _ _ (by decide)

/-- A comma after an element continues the array. -/
theorem afterElem_comma (r : List Char) : afterElem (',' :: r) = some (true, r) := by
  unfold afterElem
  rw [skipWs_cons_of_not _ _ (by decide)]
  try dsimp only
  rw [if_pos rfl]

/-- A closing bracket after an element ends the array. -/
theorem afterElem_rbrack (r : List Char) : afterElem (']' :: r) = some (false, r) := by
  unfold afterElem
  rw [skipWs_cons_of_not _ _ (by decide)]
  try dsimp only
  rw [if_neg (by decide), if_pos rfl]

/-- A comma after a field continues the object. -/
theorem afterField_comma (r : List Char) : afterField (',' :: r) = some (true, r) := by
  unfold afterField
  rw [skipWs_cons_of_not _ _ (by decide)]
  try dsimp only
  rw [if_pos rfl]

/-- A closing brace after a field ends the object. -/
theorem afterField_rbrace (r : List Char) :
    afterField (rbraceC :: r) = some (false, r) := by
  unfold afterField
  rw [skipWs_cons_of_not _ _ (by decide)]
  try dsimp only
  rw [if_neg (by decide), if_pos rfl]

/-- A dumped key (with its following colon) is parsed back exactly. -/
theorem parseKey_dumps (k : String) (ws tail : List Char) (hws : allWs ws) :
    parseKey (ws ++ (dumpsStr k ++ (':' :: tail))) = some (k, tail) := by
  unfold parseKey
  rw [skipWs_append_allWs ws _ hws]
  simp only [dumpsStr, List.cons_append, List.append_assoc, List.singleton_append,
    List.nil_append]
  rw [skipWs_cons_of_not _ _ (by decide)]
  try dsimp only
  rw [if_pos rfl]
  rw [parseStrBody_escape k.data (':' :: tail)]
  try dsimp only
  rw [skipWs_cons_of_not _ _ (by decide)]
  try dsimp only
  rw [if_pos rfl]

mutual

/-- The value parser reads `json.dumps` output (under an all-whitespace
prefix, with a digit-free remainder) back to the dumped value. -/
theorem parseVal_dumps : ∀ (v : JVal) (fuel : Nat) (ws rest : List Char), allWs ws →
    sizeJ v ≤ fuel → digitFreeHead rest →
    parseVal fuel (ws ++ (dumpsVal v ++ rest)) = some (v, rest)
  | .null, fuel, ws, rest, hws, hfuel, hrest => by
    cases fuel with
    | zero => exact absurd hfuel (by have h := sizeJ_pos .null; omega)
    | succ f =>
      simp only [dumpsVal, List.cons_append, List.nil_append]
      conv_lhs => unfold parseVal
      try dsimp only
      rw [skipWs_append_allWs ws _ hws, skipWs_cons_of_not _ _ (by decide)]
      try dsimp only
      rw [if_pos rfl]
      try dsimp only
      rw [if_pos ⟨rfl, rfl, rfl⟩]
  | .bool true, fuel, ws, rest, hws, hfuel, hrest => by
    cases fuel with
    | zero => exact absurd hfuel (by have h := sizeJ_pos (.bool true); omega)
    | succ f =>
      simp only [dumpsVal, List.cons_append, List.nil_append]
      conv_lhs => unfold parseVal
      try dsimp only
      rw [skipWs_append_allWs ws _ hws, skipWs_cons_of_not _ _ (by decide)]
      try dsimp only
      rw [if_neg (by decide), if_pos rfl]
      try dsimp only
      rw [if_pos ⟨rfl, rfl, rfl⟩]
  | .bool false, fuel, ws, rest, hws, hfuel, hrest => by
    cases fuel with
    | zero => exact absurd hfuel (by have h := sizeJ_pos (.bool false); omega)
    | succ f =>
      simp only [dumpsVal, List.cons_append, List.nil_append]
      conv_lhs => unfold parseVal
      try dsimp only
      rw [skipWs_append_allWs ws _ hws, skipWs_cons_of_not _ _ (by decide)]
      try dsimp only
      rw [if_neg (by decide), if_neg (by decide), if_pos rfl]
      try dsimp only
      rw [if_pos ⟨rfl, rfl, rfl, rfl⟩]
  | .int n, fuel, ws, rest, hws, hfuel, hrest => by
    cases fuel with
    | zero => exact absurd hfuel (by have h := sizeJ_pos (.int n); omega)
    | succ f =>
      simp only [dumpsVal]
      by_cases hn : n < 0
      · simp only [intDigs, if_pos hn, List.cons_append]
        conv_lhs => unfold parseVal
        try dsimp only
        rw [skipWs_append_allWs ws _ hws, skipWs_cons_of_not _ _ (by decide)]
        try dsimp only
        rw [if_neg (by decide), if_neg (by decide), if_neg (by decide), if_neg (by decide),
          if_pos rfl]
        rw [parseNatTok_digs n.natAbs rest hrest]
        try dsimp only
        have harg : (-((n.natAbs : Nat) : Int)) = n := by omega
        rw [harg]
      · simp only [intDigs, if_neg hn]
        obtain ⟨c0, t0, hd, h1, h2⟩ := natDigs_head n.toNat
        rw [hd]
        simp only [List.cons_append]
        conv_lhs => unfold parseVal
        try dsimp only
        have hnw : isWs c0 = false := by
          unfold isWs
          have e1 : c0 ≠ ' ' := by intro hh; rw [hh] at h1; revert h1; decide
          have e2 : c0 ≠ '\t' := by intro hh; rw [hh] at h1; revert h1; decide
          have e3 : c0 ≠ '\n' := by intro hh; rw [hh] at h1; revert h1; decide
          have e4 : c0 ≠ '\r' := by intro hh; rw [hh] at h1; revert h1; decide
          simp [e1, e2, e3, e4]
        rw [skipWs_append_allWs ws _ hws, skipWs_cons_of_not _ _ hnw]
        try dsimp only
        rw [if_neg (fun hh => by rw [hh] at h2; revert h2; decide),
          if_neg (fun hh => by rw [hh] at h2; revert h2; decide),
          if_neg (fun hh => by rw [hh] at h2; revert h2; decide),
          if_neg (fun hh => by rw [hh] at h1; revert h1; decide),
          if_neg (fun hh => by rw [hh] at h1; revert h1; decide),
          if_pos ⟨h1, h2⟩]
        rw [← List.cons_append, ← hd]
        rw [parseNatTok_digs n.toNat rest hrest]
        try dsimp only
        have harg : ((n.toNat : Nat) : Int) = n := by omega
        rw [harg]
  | .str s, fuel, ws, rest, hws, hfuel, hrest => by
    cases fuel with
    | zero => exact absurd hfuel (by have h := sizeJ_pos (.str s); omega)
    | succ f =>
      simp only [dumpsVal, dumpsStr, List.cons_append, List.append_assoc,
        List.singleton_append, List.nil_append]
      conv_lhs => unfold parseVal
      try dsimp only
      rw [skipWs_append_allWs ws _ hws, skipWs_cons_of_not _ _ (by decide)]
      try dsimp only
      rw [if_neg (by decide), if_neg (by decide), if_neg (by decide), if_pos rfl]
      rw [parseStrBody_escape s.data rest]
  | .arr [], fuel, ws, rest, hws, hfuel, hrest => by
    cases fuel with
    | zero => exact absurd hfuel (by have h := sizeJ_pos (.arr []); omega)
    | succ f =>
      simp only [dumpsVal, List.cons_append, List.nil_append]
      conv_lhs => unfold parseVal
      try dsimp only
      rw [skipWs_append_allWs ws _ hws, skipWs_cons_of_not _ _ (by decide)]
      try dsimp only
      rw [if_neg (by decide), if_neg (by decide), if_neg (by decide), if_neg (by decide),
        if_neg (by decide), if_neg (by decide), if_pos rfl]
      rw [skipWs_cons_of_not _ _ (by decide)]
      try dsimp only
      rw [if_pos rfl]
  | .arr (x :: xs), fuel, ws, rest, hws, hfuel, hrest => by
    cases fuel with
    | zero => exact absurd hfuel (by have h := sizeJ_pos (.arr (x :: xs)); omega)
    | succ f =>
      obtain ⟨c0, t0, hd, hnw, hnb⟩ := dumpsVal_cons x
      simp only [dumpsVal, List.cons_append, List.append_assoc, List.singleton_append, List.nil_append]
      conv_lhs => unfold parseVal
      try dsimp only
      rw [skipWs_append_allWs ws _ hws, skipWs_cons_of_not _ _ (by decide)]
      try dsimp only
      rw [if_neg (by decide), if_neg (by decide), if_neg (by decide), if_neg (by decide),
        if_neg (by decide), if_neg (by decide), if_pos rfl]
      rw [hd]
      simp only [List.cons_append]
      rw [skipWs_cons_of_not _ _ hnw]
      try dsimp only
      rw [if_neg hnb]
      rw [← List.cons_append, ← hd]
      have hrec := parseElems_dumps x xs f [] rest allWs_nil
        (by simp only [sizeJ, sizeElemsJ] at hfuel; omega) hrest
      simp only [List.nil_append] at hrec
      rw [hrec]
  | .obj [], fuel, ws, rest, hws, hfuel, hrest => by
    cases fuel with
    | zero => exact absurd hfuel (by have h := sizeJ_pos (.obj []); omega)
    | succ f =>
      simp only [dumpsVal, List.cons_append, List.nil_append]
      conv_lhs => unfold parseVal
      try dsimp only
      rw [skipWs_append_allWs ws _ hws, skipWs_cons_of_not _ _ (by decide)]
      try dsimp only
      rw [if_neg (by decide), if_neg (by decide), if_neg (by decide), if_neg (by decide),
        if_neg (by decide), if_neg (by decide), if_neg (by decide), if_pos rfl]
      rw [skipWs_cons_of_not _ _ (by decide)]
      try dsimp only
      rw [if_pos rfl]
  | .obj (g :: fs), fuel, ws, rest, hws, hfuel, hrest => by
    cases fuel with
    | zero => exact absurd hfuel (by have h := sizeJ_pos (.obj (g :: fs)); omega)
    | succ f =>
      simp only [dumpsVal, dumpsStr, List.cons_append, List.append_assoc,
        List.singleton_append, List.nil_append]
      conv_lhs => unfold parseVal
      try dsimp only
      rw [skipWs_append_allWs ws _ hws, skipWs_cons_of_not _ _ (by decide)]
      try dsimp only
      rw [if_neg (by decide), if_neg (by decide), if_neg (by decide), if_neg (by decide),
        if_neg (by decide), if_neg (by decide), if_neg (by decide), if_pos rfl]
      rw [skipWs_cons_of_not _ _ (by decide)]
      try dsimp only
      rw [if_neg (by decide)]
      have hrec := parseFields_dumps g.1 g.2 fs f [] rest allWs_nil
        (by simp only [sizeJ, sizeFieldsJ] at hfuel; omega) hrest
      simp only [List.nil_append, dumpsStr, List.cons_append, List.append_assoc,
        List.singleton_append, List.nil_append] at hrec
      rw [hrec]
  termination_by v _ _ _ _ _ _ => sizeJ v
  decreasing_by all_goals ((try simp_wf); (try simp only [sizeJ, sizeElemsJ, sizeFieldsJ]); omega)

/-- Array elements printed by `json.dumps`, up to the closing bracket,
are parsed back to the element list. -/
theorem parseElems_dumps : ∀ (x : JVal) (xs : List JVal) (fuel : Nat) (ws rest : List Char),
    allWs ws → sizeJ x + sizeElemsJ xs + 1 ≤ fuel → digitFreeHead rest →
    parseElems fuel (ws ++ dumpsVal x ++ (dumpsElems xs ++ (']' :: rest)))
      = some (x :: xs, rest)
  | x, [], fuel, ws, rest, hws, hfuel, hrest => by
    cases fuel with
    | zero => exact absurd hfuel (by have h := sizeJ_pos x; omega)
    | succ f =>
      simp only [dumpsElems, List.nil_append, List.append_assoc]
      conv_lhs => unfold parseElems
      try dsimp only
      rw [parseVal_dumps x f ws (']' :: rest) hws
        (by simp only [sizeElemsJ] at hfuel; omega) (dfh_cons _ _ (by decide))]
      try dsimp only
      rw [afterElem_rbrack]
  | x, y :: ys, fuel, ws, rest, hws, hfuel, hrest => by
    cases fuel with
    | zero => exact absurd hfuel (by have h := sizeJ_pos x; omega)
    | succ f =>
      simp only [dumpsElems, List.cons_append, List.append_assoc]
      conv_lhs => unfold parseElems
      try dsimp only
      rw [parseVal_dumps x f ws
        (',' :: ' ' :: (dumpsVal y ++ (dumpsElems ys ++ (']' :: rest)))) hws
        (by simp only [sizeElemsJ] at hfuel; omega) (dfh_cons _ _ (by decide))]
      try dsimp only
      rw [afterElem_comma]
      try dsimp only
      have hrec := parseElems_dumps y ys f [' '] rest allWs_space
        (by simp only [sizeElemsJ] at hfuel; omega) hrest
      simp only [List.singleton_append, List.append_assoc, List.nil_append,
        List.cons_append] at hrec
      rw [hrec]
  termination_by x xs _ _ _ _ _ _ => sizeJ x + sizeElemsJ xs + 1
  decreasing_by all_goals ((try simp_wf); (try simp only [sizeJ, sizeElemsJ, sizeFieldsJ]); omega)

/-- Object fields printed by `json.dumps`, up to the closing brace, are
parsed back to the field list. -/
theorem parseFields_dumps : ∀ (k : String) (v : JVal) (fs : List (String × JVal))
    (fuel : Nat) (ws rest : List Char),
    allWs ws → sizeJ v + sizeFieldsJ fs + 1 ≤ fuel → digitFreeHead rest →
    parseFields fuel (ws ++ (dumpsStr k ++ (':' :: ' ' ::
      (dumpsVal v ++ (dumpsFields fs ++ (rbraceC :: rest))))))
      = some ((k, v) :: fs, rest)
  | k, v, [], fuel, ws, rest, hws, hfuel, hrest => by
    cases fuel with
    | zero => exact absurd hfuel (by have h := sizeJ_pos v; omega)
    | succ f =>
      simp only [dumpsFields, List.nil_append]
      conv_lhs => unfold parseFields
      try dsimp only
      rw [parseKey_dumps k ws _ hws]
      try dsimp only
      have hv := parseVal_dumps v f [' '] (rbraceC :: rest) allWs_space
        (by simp only [sizeFieldsJ] at hfuel; omega) (dfh_cons _ _ (by decide))
      simp only [List.singleton_append] at hv
      rw [hv]
      try dsimp only
      rw [afterField_rbrace]
  | k, v, g :: gs, fuel, ws, rest, hws, hfuel, hrest => by
    cases fuel with
    | zero => exact absurd hfuel (by have h := sizeJ_pos v; omega)
    | succ f =>
      simp only [dumpsFields, List.cons_append, List.append_assoc]
      conv_lhs => unfold parseFields
      try dsimp only
      rw [parseKey_dumps k ws _ hws]
      try dsimp only
      have hv := parseVal_dumps v f [' ']
        (',' :: ' ' :: (dumpsStr g.1 ++ (':' :: ' ' ::
          (dumpsVal g.2 ++ (dumpsFields gs ++ (rbraceC :: rest)))))) allWs_space
        (by simp only [sizeFieldsJ] at hfuel; omega) (dfh_cons _ _ (by decide))
      simp only [List.singleton_append] at hv
      rw [hv]
      try dsimp only
      rw [afterField_comma]
      try dsimp only
      have hrec := parseFields_dumps g.1 g.2 gs f [' '] rest allWs_space
        (by simp only [sizeFieldsJ] at hfuel; omega) hrest
      simp only [List.singleton_append, List.append_assoc, List.nil_append,
        List.cons_append] at hrec
      rw [hrec]
  termination_by _ v fs _ _ _ _ _ _ => sizeJ v + sizeFieldsJ fs + 1
  decreasing_by all_goals ((try simp_wf); (try simp only [sizeJ, sizeElemsJ, sizeFieldsJ]); omega)

end

mutual

/-- A value's size never exceeds its printed length (so the fuel `loads`
passes to `parseVal` is always sufficient). -/
theorem sizeJ_le : ∀ v : JVal, sizeJ v ≤ (dumpsVal v).length
  | .null => by simp [sizeJ, dumpsVal]
  | .bool true => by simp [sizeJ, dumpsVal]
  | .bool false => by simp [sizeJ, dumpsVal]
  | .int n => by
    obtain ⟨c, t, hd, _, _⟩ := dumpsVal_cons (.int n)
    rw [hd]
    simp [sizeJ]
  | .str s => by
    obtain ⟨c, t, hd, _, _⟩ := dumpsVal_cons (.str s)
    rw [hd]
    simp [sizeJ]
  | .arr [] => by simp [sizeJ, sizeElemsJ, dumpsVal]
  | .arr (x :: xs) => by
    have hx := sizeJ_le x
    have hxs := sizeElemsJ_le xs
    simp only [sizeJ, sizeElemsJ, dumpsVal, List.length_cons, List.length_append,
      List.length_singleton]
    omega
  | .obj [] => by simp [sizeJ, sizeFieldsJ, dumpsVal]
  | .obj (g :: gs) => by
    have hv := sizeJ_le g.2
    have hgs := sizeFieldsJ_le gs
    simp only [sizeJ, sizeFieldsJ, dumpsVal, List.length_cons, List.length_append,
      List.length_singleton]
    omega
  termination_by v => sizeJ v
  decreasing_by all_goals ((try simp_wf); (try simp only [sizeJ, sizeElemsJ, sizeFieldsJ]); omega)

/-- Element-list size never exceeds its printed length. -/
theorem sizeElemsJ_le : ∀ xs : List JVal, sizeElemsJ xs ≤ (dumpsElems xs).length
  | [] => by simp [sizeElemsJ, dumpsElems]
  | x :: xs => by
    have hx := sizeJ_le x
    have hxs := sizeElemsJ_le xs
    simp only [sizeElemsJ, dumpsElems, List.length_cons, List.length_append]
    omega
  termination_by xs => sizeElemsJ xs
  decreasing_by all_goals ((try simp_wf); (try simp only [sizeJ, sizeElemsJ, sizeFieldsJ]); omega)

/-- Field-list size never exceeds its printed length. -/
theorem sizeFieldsJ_le : ∀ fs : List (String × JVal), sizeFieldsJ fs ≤ (dumpsFields fs).length
  | [] => by simp [sizeFieldsJ, dumpsFields]
  | g :: gs => by
    have hv := sizeJ_le g.2
    have hgs := sizeFieldsJ_le gs
    simp only [sizeFieldsJ, dumpsFields, List.length_cons, List.length_append]
    omega
  termination_by fs => sizeFieldsJ fs
  decreasing_by all_goals ((try simp_wf); (try simp only [sizeJ, sizeElemsJ, sizeFieldsJ]); omega)

end

/-- JSON round trip: `json.loads` inverts `json.dumps` on every value of
the model (Python's guarantee for JSON-safe payloads). -/
theorem loads_dumps (v : JVal) : loads (String.mk (dumpsVal v)) = some v := by
  unfold loads
  have hdata : (String.mk (dumpsVal v)).data = dumpsVal v := rfl
  rw [hdata]
  have h := parseVal_dumps v ((dumpsVal v).length + 1) [] [] allWs_nil
    (by have := sizeJ_le v; omega) trivial
  simp only [List.nil_append, List.append_nil] at h
  rw [h]
  simp [skipWs]

/-! ## Message codec (`MailboxMessage.to_redis_fields` / `from_redis_fields`)

Python floats (the `timestamp` field) are kept opaque: a `FloatModel`
carries the type together with `str` and `float` conversions. Python
guarantees `float(str(x)) == x` for finite floats; theorems that need
it take it as a hypothesis on the one timestamp involved. -/

/-- Opaque model of Python `float` with its `str`/`float()` conversions. -/
structure FloatModel where
  F : Type
  toStr : F → String
  ofStr : String → Option F

/-- `MailboxMessage` (dataclass): the six fields of the wire format. -/
structure MailboxMessage (FM : FloatModel) where
  message_id : String
  sender : String
  recipient : String
  payload : JVal
  message_type : String
  timestamp : FM.F

/-- Python `dict(pairs).get(k, d)`: later duplicate keys override earlier
ones, and a missing key yields the default. -/
def pyGet : List (String × String) → String → String → String
  | [], _, d => d
  | (k1, v) :: rest, k, d => if k1 = k then pyGet rest k v else pyGet rest k d

/-- `MailboxMessage.to_redis_fields`: the six fields, with the payload
JSON-encoded and the timestamp printed as decimal text. -/
def toRedisFields (FM : FloatModel) (m : MailboxMessage FM) : List (String × String) :=
  [("message_id", m.message_id),
   ("sender", m.sender),
   ("recipient", m.recipient),
   ("payload", String.mk (dumpsVal m.payload)),
   ("message_type", m.message_type),
   ("timestamp", FM.toStr m.timestamp)]

/-- The string-level half of `from_redis_fields` (after `k.decode()` /
`v.decode()`): `json.loads` on the payload (default `"\x7b\x7d"`), the
documented defaults for missing fields, and `float()` on the timestamp.
The payload is decoded first, exactly as in the source, so a payload
error masks a timestamp error. -/
def fromDecodedFields (FM : FloatModel) (freshId : String)
    (decoded : List (String × String)) : Except PyErr (MailboxMessage FM) :=
  match loads (pyGet decoded "payload" "\x7b\x7d") with
  | none => .error .jsonDecodeError
  | some payload =>
    match FM.ofStr (pyGet decoded "timestamp" "0.0") with
    | none => .error .valueError
    | some ts =>
      .ok { message_id := pyGet decoded "message_id" freshId
            sender := pyGet decoded "sender" "unknown"
            recipient := pyGet decoded "recipient" "unknown"
            payload := payload
            message_type := pyGet decoded "message_type" "direct_message"
            timestamp := ts }

/-- The dict comprehension `\x7bk.decode(): v.decode() for k, v in
fields.items()\x7d`: decode every key and value, raising on the first
invalid UTF-8 sequence. -/
def decodePairs : List (ByteStr × ByteStr) → Except PyErr (List (String × String))
  | [] => .ok []
  | (kb, vb) :: rest =>
    match utf8Decode kb with
    | .error e => .error e
    | .ok k =>
      match utf8Decode vb with
      | .error e => .error e
      | .ok v =>
        match decodePairs rest with
        | .error e => .error e
        | .ok tail => .ok ((k, v) :: tail)

/-- `MailboxMessage.from_redis_fields` on a byte-level field map. -/
def fromRedisFields (FM : FloatModel) (freshId : String)
    (fields : List (ByteStr × ByteStr)) : Except PyErr (MailboxMessage FM) :=
  match decodePairs fields with
  | .error e => .error e
  | .ok decoded => fromDecodedFields FM freshId decoded

/-- The transport applied by the Redis client: each string field is sent
as its UTF-8 bytes. -/
def encodeFields (fields : List (String × String)) : List (ByteStr × ByteStr) :=
  fields.map (fun p => (utf8Encode p.1, utf8Encode p.2))

/-- Decoding the byte transport of a string field map restores it. -/
theorem decodePairs_encode : ∀ l : List (String × String),
    decodePairs (encodeFields l) = .ok l := by
  intro l
  induction l with
  | nil => rfl
  | cons p rest ih =>
    obtain ⟨k, v⟩ := p
    simp only [encodeFields, List.map_cons] at ih ⊢
    unfold decodePairs
    rw [utf8Decode_encode k, utf8Decode_encode v]
    try dsimp only
    rw [ih]

/-- Missing key: the default is returned. -/
theorem pyGet_nil (k d : String) : pyGet [] k d = d := rfl

/-- Matching head: the value becomes the new default (last wins). -/
theorem pyGet_cons_eq (k v : String) (rest : List (String × String)) (d : String) :
    pyGet ((k, v) :: rest) k d = pyGet rest k v := by
  conv_lhs => unfold pyGet
  rw [if_pos rfl]

/-- Non-matching head is skipped. -/
theorem pyGet_cons_ne (k1 v : String) (rest : List (String × String)) (k d : String)
    (h : k1 ≠ k) : pyGet ((k1, v) :: rest) k d = pyGet rest k d := by
  conv_lhs => unfold pyGet
  rw [if_neg h]

/-! ## Service configuration and error-string matching -/

/-- `MailboxConfig` (dataclass defaults as in the source).  The
`stream_prefix` field is named `streamPref` here; `poll_interval`
(a Python float) is modelled as a rational. -/
structure MailboxConfig where
  host : String := "localhost"
  port : Nat := 6379
  db : Nat := 0
  password : Option String := none
  streamPref : String := "beast:mailbox"
  max_stream_length : Nat := 1000
  poll_interval : ℚ := 2
  enable_recovery : Bool := true
  recovery_min_idle_time : Nat := 0
  recovery_batch_size : Nat := 50

/-- `RecoveryMetrics` (dataclass): counters and monotonic times. -/
structure RecoveryMetrics where
  total_recovered : Nat := 0
  batches_processed : Nat := 0
  start_time : Option ℚ := none
  end_time : Option ℚ := none

/-- `pat` occurs as a contiguous sublist of `l`. -/
def listInfix (pat : List Char) : List Char → Bool
  | [] => pat.isEmpty
  | c :: t => pat.isPrefixOf (c :: t) || listInfix pat t

/-- Python `needle in haystack` on strings (substring containment), as
used for the `BUSYGROUP` / `NOGROUP` checks on `str(exc)`. -/
def pyIn (needle hay : String) : Bool :=
  listInfix needle.data hay.data

/-! ## Handler dispatch (`_dispatch`) -/

/-- One observable event of a `_dispatch` call: the empty-handlers log
line, or handler number `i` returning / raising (the exception is caught
and logged). -/
inductive DispatchEvent where
  | logNoHandlers
  | handlerOk (i : Nat)
  | handlerErr (i : Nat) (e : String)
  deriving DecidableEq, Repr

/-- Run the handlers in list order from index `i`, recording for each
whether it returned or raised; a raise never stops the iteration. -/
def dispatchAux {α : Type} (m : α) : Nat → List (α → Except String Unit) → List DispatchEvent
  | _, [] => []
  | i, h :: hs =>
    (match h m with
     | .ok _ => DispatchEvent.handlerOk i
     | .error e => DispatchEvent.handlerErr i e) :: dispatchAux m (i + 1) hs

/-- `_dispatch`: log-and-return on an empty handler list, otherwise call
every handler in registration order, suppressing handler exceptions. -/
def dispatch {α : Type} (handlers : List (α → Except String Unit)) (m : α) :
    List DispatchEvent :=
  match handlers with
  | [] => [.logNoHandlers]
  | _ :: _ => dispatchAux m 0 handlers

/-- The handler index of a dispatch event, if it is an invocation. -/
def dispatchIx : DispatchEvent → Option Nat
  | .logNoHandlers => none
  | .handlerOk i => some i
  | .handlerErr i _ => some i

/-- `dispatchAux` invokes exactly the handlers from `i` on, in order,
whether or not any of them raises. -/
theorem dispatchAux_ix {α : Type} (m : α) : ∀ (hs : List (α → Except String Unit)) (i : Nat),
    (dispatchAux m i hs).filterMap dispatchIx = List.range' i hs.length := by
  intro hs
  induction hs with
  | nil => intro i; rfl
  | cons h t ih =>
    intro i
    unfold dispatchAux
    cases h m with
    | ok _ =>
      simp only [List.filterMap_cons, dispatchIx, List.length_cons, List.range'_succ]
      rw [ih (i + 1)]
    | error e =>
      simp only [List.filterMap_cons, dispatchIx, List.length_cons, List.range'_succ]
      rw [ih (i + 1)]

/-- `_dispatch` invokes every registered handler exactly once, in
registration order, regardless of which handlers raise. -/
theorem dispatch_ix {α : Type} (handlers : List (α → Except String Unit)) (m : α) :
    (dispatch handlers m).filterMap dispatchIx = List.range handlers.length := by
  cases handlers with
  | nil => rfl
  | cons h t =>
    unfold dispatch
    rw [dispatchAux_ix m (h :: t) 0, List.range_eq_range']

/-! ## Consume-loop processing (`_consume_loop`) -/

/-- Observable events of the consume loop. -/
inductive CEvent where
  | dispatched (ev : DispatchEvent)
  | acked (stream : String) (id : String)
  | errorLogged
  | slept (seconds : ℚ)
  | cancelRaised
  deriving DecidableEq

/-- Process the messages of one stream, in order: decode, dispatch,
`XACK`.  A decode failure raises out of the entry loop (second component
`false`), so later entries (and the failing one) are not acknowledged. -/
def processEntries (FM : FloatModel) (freshId : String)
    (handlers : List (MailboxMessage FM → Except String Unit)) (stream : String) :
    List (String × List (ByteStr × ByteStr)) → List CEvent × Bool
  | [] => ([], true)
  | (mid, fields) :: rest =>
    match fromRedisFields FM freshId fields with
    | .error _ => ([], false)
    | .ok msg =>
      let evs := (dispatch handlers msg).map CEvent.dispatched ++ [CEvent.acked stream mid]
      let r := processEntries FM freshId handlers stream rest
      (evs ++ r.1, r.2)

/-- Process one `XREADGROUP` response: each returned stream in order;
an exception aborts the remaining streams too. -/
def processStreams (FM : FloatModel) (freshId : String)
    (handlers : List (MailboxMessage FM → Except String Unit)) :
    List (String × List (String × List (ByteStr × ByteStr))) → List CEvent × Bool
  | [] => ([], true)
  | (sname, msgs) :: rest =>
    let r1 := processEntries FM freshId handlers sname msgs
    if r1.2 then
      let r2 := processStreams FM freshId handlers rest
      (r1.1 ++ r2.1, r2.2)
    else (r1.1, false)

/-- What one iteration of the consume loop observes from its awaits. -/
inductive IterIn where
  | cancel
  | exc
  | timeout
  | resp (streams : List (String × List (String × List (ByteStr × ByteStr))))

/-- Why the loop ended (within the modelled input window). -/
inductive ExitReason where
  | stopped
  | cancelled
  | inputsExhausted
  deriving DecidableEq

/-- `_consume_loop` over a finite window of iterations.  Each element
gives the `_running` flag read at the top of the iteration and what the
awaited read produced.  Cancellation is re-raised; any other exception
(including a decode failure while processing a response) is logged,
followed by a sleep of `poll_interval`, and the loop continues. -/
def consumeRun (FM : FloatModel) (freshId : String)
    (handlers : List (MailboxMessage FM → Except String Unit)) (pollInterval : ℚ) :
    List (Bool × IterIn) → List CEvent × ExitReason
  | [] => ([], .inputsExhausted)
  | (running, inp) :: rest =>
    if running then
      match inp with
      | .cancel => ([.cancelRaised], .cancelled)
      | .exc =>
        let r := consumeRun FM freshId handlers pollInterval rest
        (CEvent.errorLogged :: CEvent.slept pollInterval :: r.1, r.2)
      | .timeout => consumeRun FM freshId handlers pollInterval rest
      | .resp streams =>
        let p := processStreams FM freshId handlers streams
        if p.2 then
          let r := consumeRun FM freshId handlers pollInterval rest
          (p.1 ++ r.1, r.2)
        else
          let r := consumeRun FM freshId handlers pollInterval rest
          (p.1 ++ CEvent.errorLogged :: CEvent.slept pollInterval :: r.1, r.2)
    else ([], .stopped)

/-! ## Recovery engine (`_recover_pending_messages`) -/

/-- Observable events of a recovery run. -/
inductive REvent where
  | callbackInvoked (metrics : RecoveryMetrics)
  | dispatched (ev : DispatchEvent)
  | acked (id : String)
  | recoveryErrorLogged

/-- Outcome of the `xpending_range` probe: a (possibly empty) pending
list, an exception (whose text is matched against `"NOGROUP"`), or task
cancellation (which `except Exception` does not catch). -/
inductive ProbeOutcome where
  | ok (info : List Unit)
  | err (msg : String)
  | cancelled

/-- One `xautoclaim` response: the triple `(next cursor, claimed
messages, deleted ids)`, a malformed/short response, an exception from
the call, or task cancellation. -/
inductive ClaimResp where
  | triple (nextId : String) (messages : List (String × List (ByteStr × ByteStr)))
      (deleted : List String)
  | malformed
  | exc
  | cancelled

/-- Dispatch and `XACK` each claimed message in order, counting the
acknowledged ones; a decode failure aborts the batch (`false`) with the
earlier messages already acknowledged and counted. -/
def recProcess (FM : FloatModel) (freshId : String)
    (handlers : List (MailboxMessage FM → Except String Unit)) :
    List (String × List (ByteStr × ByteStr)) → List REvent × Nat × Bool
  | [] => ([], 0, true)
  | (mid, fields) :: rest =>
    match fromRedisFields FM freshId fields with
    | .error _ => ([], 0, false)
    | .ok msg =>
      let evs := (dispatch handlers msg).map REvent.dispatched ++ [REvent.acked mid]
      let r := recProcess FM freshId handlers rest
      (evs ++ r.1, r.2.1 + 1, r.2.2)

/-- The mutable state of the claim-and-dispatch loop. -/
structure LoopSt where
  cursor : String
  total : Nat
  batches : Nat

/-- Result of one loop iteration. -/
inductive StepOut where
  | next (st : LoopSt) (evs : List REvent)
  | broke (evs : List REvent) (st : LoopSt)
  | raised

/-- One iteration of the claim-and-dispatch loop on one `xautoclaim`
response: a malformed response or a call exception breaks; an empty
batch breaks when the next cursor is `"0-0"` and otherwise advances the
cursor; a non-empty batch is processed (a decode error breaking, after
logging, with partial progress kept) and the loop continues at the next
cursor; cancellation is re-raised. -/
def recStep (FM : FloatModel) (freshId : String)
    (handlers : List (MailboxMessage FM → Except String Unit)) (st : LoopSt) :
    ClaimResp → StepOut
  | .cancelled => .raised
  | .exc => .broke [.recoveryErrorLogged] st
  | .malformed => .broke [] st
  | .triple nextId msgs _ =>
    match msgs with
    | [] =>
      if nextId = "0-0" then .broke [] st
      else .next { st with cursor := nextId } []
    | _ :: _ =>
      let r := recProcess FM freshId handlers msgs
      if r.2.2 then
        .next { cursor := nextId, total := st.total + r.2.1, batches := st.batches + 1 } r.1
      else
        .broke (r.1 ++ [.recoveryErrorLogged]) { st with total := st.total + r.2.1 }

/-- The claim-and-dispatch loop over a finite list of responses (a
terminating run consumes them in order; exhaustion models the connection
going away, which the loop's exception handling turns into a break). -/
def recLoop (FM : FloatModel) (freshId : String)
    (handlers : List (MailboxMessage FM → Except String Unit)) :
    List ClaimResp → LoopSt → List REvent × Option LoopSt
  | [], st => ([], some st)
  | r :: rest, st =>
    match recStep FM freshId handlers st r with
    | .raised => ([], none)
    | .broke evs st2 => (evs, some st2)
    | .next st2 evs =>
      let k := recLoop FM freshId handlers rest st2
      (evs ++ k.1, k.2)

/-- `_recover_pending_messages`: the short-circuits (recovery disabled,
no handlers, probe results) and the claim-and-dispatch loop, with the
recovery callback invoked where the source invokes it.  The second
component is `none` when cancellation was re-raised (so the caller sees
the exception), and otherwise the returned metrics. -/
def recoverPendingMessages (FM : FloatModel) (freshId : String) (cfg : MailboxConfig)
    (handlers : List (MailboxMessage FM → Except String Unit)) (cbSet : Bool)
    (probe : ProbeOutcome) (responses : List ClaimResp) (t0 t1 : ℚ) :
    List REvent × Option RecoveryMetrics :=
  let metrics0 : RecoveryMetrics := { start_time := some t0 }
  if cfg.enable_recovery = false then
    ([], some metrics0)
  else if handlers.isEmpty then
    ([], some metrics0)
  else
    match probe with
    | .cancelled => ([], none)
    | .ok [] =>
      let m : RecoveryMetrics := { metrics0 with end_time := some t1 }
      (if cbSet then [.callbackInvoked m] else [], some m)
    | .err msg =>
      let m : RecoveryMetrics := { metrics0 with end_time := some t1 }
      (if cbSet then [.callbackInvoked m] else [], some m)
    | .ok (_ :: _) =>
      let k := recLoop FM freshId handlers responses { cursor := "0-0", total := 0, batches := 0 }
      match k.2 with
      | none => (k.1, none)
      | some st =>
        let m : RecoveryMetrics :=
          { total_recovered := st.total
            batches_processed := st.batches
            start_time := some t0
            end_time := some t1 }
        (k.1 ++ (if cbSet then [.callbackInvoked m] else []), some m)

/-! ## `start` -/

/-- The outcome of `start`: the returned value together with whether the
consume-loop task was launched, a propagated exception, or a propagated
cancellation. -/
inductive StartOut where
  | ok (returned : Bool) (loopLaunched : Bool)
  | raised (e : String)
  | raisedCancel
  deriving Repr

/-- The tail of `start` after group creation: recovery (when enabled),
then set `_running`, launch the consume loop, and return `True`. -/
def startAfterGroup (FM : FloatModel) (freshId : String) (cfg : MailboxConfig)
    (handlers : List (MailboxMessage FM → Except String Unit)) (cbSet : Bool)
    (probe : ProbeOutcome) (responses : List ClaimResp) (t0 t1 : ℚ) :
    List REvent × StartOut :=
  if cfg.enable_recovery then
    let r := recoverPendingMessages FM freshId cfg handlers cbSet probe responses t0 t1
    match r.2 with
    | none => (r.1, .raisedCancel)
    | some _ => (r.1, .ok true true)
  else ([], .ok true true)

/-- `start`: connect, create the consumer group (`BUSYGROUP` from
`str(exc)` is absorbed, any other error propagates), run recovery when
enabled, launch the consume loop and return `True`. -/
def start (FM : FloatModel) (freshId : String) (cfg : MailboxConfig)
    (handlers : List (MailboxMessage FM → Except String Unit)) (cbSet : Bool)
    (conn : Except String Unit) (grp : Except String Unit)
    (probe : ProbeOutcome) (responses : List ClaimResp) (t0 t1 : ℚ) :
    List REvent × StartOut :=
  match conn with
  | .error e => ([], .raised e)
  | .ok _ =>
    match grp with
    | .error e =>
      if pyIn "BUSYGROUP" e then
        startAfterGroup FM freshId cfg handlers cbSet probe responses t0 t1
      else ([], .raised e)
    | .ok _ => startAfterGroup FM freshId cfg handlers cbSet probe responses t0 t1

/-! ## `send_message` -/

/-- Observable effects of `send_message`. -/
inductive SEvent where
  | connected
  | xadd (stream : String) (fields : List (String × String)) (maxlen : Nat) (approx : Bool)
  deriving DecidableEq

/-- `send_message`: ensure the connection, build the message (sender is
the service's `agent_id`; `message_id or str(uuid4())` falls back to the
fresh id for `None` and for the empty string, Python truthiness), and
issue one `XADD` to the recipient's inbox stream with approximate
trimming.  `running` and `handlers` are the parts of the service state
the source never consults here (no `start` required). -/
def sendMessage (FM : FloatModel) (agent_id : String) (cfg : MailboxConfig)
    (running : Bool) (handlers : List (MailboxMessage FM → Except String Unit))
    (recipient : String) (payload : JVal) (message_type : String)
    (message_id : Option String) (freshId : String) (now : FM.F) :
    List SEvent × String :=
  let mid : String :=
    match message_id with
    | some s => if s = "" then freshId else s
    | none => freshId
  let message : MailboxMessage FM :=
    { message_id := mid, sender := agent_id, recipient := recipient,
      payload := payload, message_type := message_type, timestamp := now }
  let stream := cfg.streamPref ++ ":" ++ recipient ++ ":in"
  ([.connected, .xadd stream (toRedisFields FM message) cfg.max_stream_length true],
    message.message_id)

/-- A concrete float model for witnesses: the single timestamp value
prints as `"0.0"` and `"0.0"` parses back to it. -/
def unitFM : FloatModel :=
  { F := Unit, toStr := fun _ => "0.0",
    ofStr := fun s => if s = "0.0" then some () else none }

/-! ## Facts about the codec used by several claims -/

/-- A key that never occurs yields the default. -/
theorem pyGet_not_mem (l : List (String × String)) (k d : String)
    (h : k ∉ l.map Prod.fst) : pyGet l k d = d := by
  induction l generalizing d with
  | nil => rfl
  | cons p rest ih =>
    obtain ⟨k1, v⟩ := p
    simp only [List.map_cons, List.mem_cons] at h
    push_neg at h
    rw [pyGet_cons_ne k1 v rest k d (fun hh => h.1 hh.symm)]
    exact ih d h.2

/-- Reading `"message_id"` out of an encoded message. -/
theorem pyGet_tr_message_id (FM : FloatModel) (m : MailboxMessage FM) (d : String) :
    pyGet (toRedisFields FM m) "message_id" d = m.message_id := by
  unfold toRedisFields
  rw [pyGet_cons_eq, pyGet_cons_ne _ _ _ _ _ (by decide), pyGet_cons_ne _ _ _ _ _ (by decide),
    pyGet_cons_ne _ _ _ _ _ (by decide), pyGet_cons_ne _ _ _ _ _ (by decide),
    pyGet_cons_ne _ _ _ _ _ (by decide), pyGet_nil]

/-- Reading `"sender"` out of an encoded message. -/
theorem pyGet_tr_sender (FM : FloatModel) (m : MailboxMessage FM) (d : String) :
    pyGet (toRedisFields FM m) "sender" d = m.sender := by
  unfold toRedisFields
  rw [pyGet_cons_ne _ _ _ _ _ (by decide), pyGet_cons_eq,
    pyGet_cons_ne _ _ _ _ _ (by decide), pyGet_cons_ne _ _ _ _ _ (by decide),
    pyGet_cons_ne _ _ _ _ _ (by decide), pyGet_cons_ne _ _ _ _ _ (by decide), pyGet_nil]

/-- Reading `"recipient"` out of an encoded message. -/
theorem pyGet_tr_recipient (FM : FloatModel) (m : MailboxMessage FM) (d : String) :
    pyGet (toRedisFields FM m) "recipient" d = m.recipient := by
  unfold toRedisFields
  rw [pyGet_cons_ne _ _ _ _ _ (by decide), pyGet_cons_ne _ _ _ _ _ (by decide),
    pyGet_cons_eq, pyGet_cons_ne _ _ _ _ _ (by decide),
    pyGet_cons_ne _ _ _ _ _ (by decide), pyGet_cons_ne _ _ _ _ _ (by decide), pyGet_nil]

/-- Reading `"payload"` out of an encoded message. -/
theorem pyGet_tr_payload (FM : FloatModel) (m : MailboxMessage FM) (d : String) :
    pyGet (toRedisFields FM m) "payload" d = String.mk (dumpsVal m.payload) := by
  unfold toRedisFields
  rw [pyGet_cons_ne _ _ _ _ _ (by decide), pyGet_cons_ne _ _ _ _ _ (by decide),
    pyGet_cons_ne _ _ _ _ _ (by decide), pyGet_cons_eq,
    pyGet_cons_ne _ _ _ _ _ (by decide), pyGet_cons_ne _ _ _ _ _ (by decide), pyGet_nil]

/-- Reading `"message_type"` out of an encoded message. -/
theorem pyGet_tr_message_type (FM : FloatModel) (m : MailboxMessage FM) (d : String) :
    pyGet (toRedisFields FM m) "message_type" d = m.message_type := by
  unfold toRedisFields
  rw [pyGet_cons_ne _ _ _ _ _ (by decide), pyGet_cons_ne _ _ _ _ _ (by decide),
    pyGet_cons_ne _ _ _ _ _ (by decide), pyGet_cons_ne _ _ _ _ _ (by decide),
    pyGet_cons_eq, pyGet_cons_ne _ _ _ _ _ (by decide), pyGet_nil]

/-- Reading `"timestamp"` out of an encoded message. -/
theorem pyGet_tr_timestamp (FM : FloatModel) (m : MailboxMessage FM) (d : String) :
    pyGet (toRedisFields FM m) "timestamp" d = FM.toStr m.timestamp := by
  unfold toRedisFields
  rw [pyGet_cons_ne _ _ _ _ _ (by decide), pyGet_cons_ne _ _ _ _ _ (by decide),
    pyGet_cons_ne _ _ _ _ _ (by decide), pyGet_cons_ne _ _ _ _ _ (by decide),
    pyGet_cons_ne _ _ _ _ _ (by decide), pyGet_cons_eq, pyGet_nil]

/-- The default payload text parses to the empty mapping. -/
theorem loads_braces : loads "\x7b\x7d" = some (JVal.obj []) := rfl

/-- The empty payload text is a JSON decode error. -/
theorem loads_empty : loads "" = none := rfl

/-- The only error `utf8Decode` produces is `UnicodeDecodeError`. -/
theorem utf8Decode_error {bs : ByteStr} {e : PyErr} (h : utf8Decode bs = .error e) :
    e = .unicodeDecodeError := by
  unfold utf8Decode at h
  revert h
  split
  · intro h; cases h
  · intro h
    simp only [Except.error.injEq] at h
    exact h.symm

/-- If any field's key or value bytes fail to decode, the whole dict
comprehension raises `UnicodeDecodeError`. -/
theorem decodePairs_error : ∀ (fields : List (ByteStr × ByteStr)),
    (∃ p ∈ fields, utf8Decode p.1 = .error PyErr.unicodeDecodeError ∨
      utf8Decode p.2 = .error PyErr.unicodeDecodeError) →
    decodePairs fields = .error .unicodeDecodeError := by
  intro fields
  induction fields with
  | nil => rintro ⟨p, hp, _⟩; cases hp
  | cons q rest ih =>
    rintro ⟨p, hp, hbad⟩
    obtain ⟨kb, vb⟩ := q
    unfold decodePairs
    cases hk : utf8Decode kb with
    | error e => rw [utf8Decode_error hk]
    | ok k =>
      cases hv : utf8Decode vb with
      | error e =>
        try dsimp only
        rw [utf8Decode_error hv]
      | ok v =>
        try dsimp only
        cases hp with
        | head =>
          rcases hbad with hb | hb
          · rw [hk] at hb; cases hb
          · rw [hv] at hb; cases hb
        | tail _ hmem =>
          rw [ih ⟨p, hmem, hbad⟩]

/-! ## Counting recovery-callback invocations -/

/-- Is this event a recovery-callback invocation? -/
def isCb : REvent → Bool
  | .callbackInvoked _ => true
  | _ => false

/-- Number of recovery-callback invocations in an event trace. -/
def cbCount : List REvent → Nat
  | [] => 0
  | e :: t => (if isCb e then 1 else 0) + cbCount t

theorem cbCount_append (a b : List REvent) : cbCount (a ++ b) = cbCount a + cbCount b := by
  induction a with
  | nil => simp [cbCount]
  | cons e t ih =>
    rw [List.cons_append,
      show cbCount (e :: (t ++ b)) = (if isCb e then 1 else 0) + cbCount (t ++ b) from rfl,
      show cbCount (e :: t) = (if isCb e then 1 else 0) + cbCount t from rfl, ih]
    omega

theorem cbCount_eq_zero (evs : List REvent) (h : ∀ e ∈ evs, isCb e = false) :
    cbCount evs = 0 := by
  induction evs with
  | nil => rfl
  | cons e t ih =>
    have he := h e (List.mem_cons_self e t)
    simp only [cbCount, he, Bool.false_eq_true, if_false]
    simp only [Nat.zero_add]
    exact ih (fun x hx => h x (List.mem_cons_of_mem e hx))

/-- Batch processing emits only dispatch/ack events, never the callback. -/
theorem recProcess_no_cb (FM : FloatModel) (freshId : String)
    (handlers : List (MailboxMessage FM → Except String Unit)) :
    ∀ msgs, ∀ e ∈ (recProcess FM freshId handlers msgs).1, isCb e = false := by
  intro msgs
  induction msgs with
  | nil => intro e he; simp [recProcess] at he
  | cons p rest ih =>
    obtain ⟨mid, fields⟩ := p
    intro e he
    unfold recProcess at he
    cases hd : fromRedisFields FM freshId fields with
    | error err =>
      rw [hd] at he
      simp at he
    | ok msg =>
      rw [hd] at he
      try dsimp only at he
      simp only [List.mem_append, List.mem_map, List.mem_singleton] at he
      rcases he with (⟨d, _, rfl⟩ | rfl) | hmem
      · rfl
      · rfl
      · exact ih e hmem

/-- The events produced by one loop iteration. -/
def evsOf : StepOut → List REvent
  | .next _ evs => evs
  | .broke evs _ => evs
  | .raised => []

/-- One loop iteration never invokes the callback. -/
theorem recStep_no_cb (FM : FloatModel) (freshId : String)
    (handlers : List (MailboxMessage FM → Except String Unit)) (st : LoopSt) (r : ClaimResp) :
    ∀ e ∈ evsOf (recStep FM freshId handlers st r), isCb e = false := by
  cases r with
  | cancelled => intro e he; simp [recStep, evsOf] at he
  | exc =>
    intro e he
    simp only [recStep, evsOf, List.mem_singleton] at he
    subst he
    rfl
  | malformed => intro e he; simp [recStep, evsOf] at he
  | triple nextId msgs del =>
    cases msgs with
    | nil =>
      intro e he
      unfold recStep at he
      try dsimp only at he
      by_cases h : nextId = "0-0"
      · rw [if_pos h] at he; simp [evsOf] at he
      · rw [if_neg h] at he; simp [evsOf] at he
    | cons q qs =>
      intro e he
      unfold recStep at he
      try dsimp only at he
      cases hf : (recProcess FM freshId handlers (q :: qs)).2.2
      · rw [if_neg (by simp [hf])] at he
        simp only [evsOf, List.mem_append, List.mem_singleton] at he
        rcases he with hmem | rfl
        · exact recProcess_no_cb FM freshId handlers (q :: qs) e hmem
        · rfl
      · rw [if_pos hf] at he
        simp only [evsOf] at he
        exact recProcess_no_cb FM freshId handlers (q :: qs) e he

/-- The claim-and-dispatch loop never invokes the callback. -/
theorem recLoop_no_cb (FM : FloatModel) (freshId : String)
    (handlers : List (MailboxMessage FM → Except String Unit)) :
    ∀ responses st, ∀ e ∈ (recLoop FM freshId handlers responses st).1, isCb e = false := by
  intro responses
  induction responses with
  | nil => intro st e he; simp [recLoop] at he
  | cons r rest ih =>
    intro st e he
    unfold recLoop at he
    cases hs : recStep FM freshId handlers st r with
    | raised => rw [hs] at he; simp at he
    | broke evs st2 =>
      rw [hs] at he
      have hn := recStep_no_cb FM freshId handlers st r
      rw [hs] at hn
      exact hn e he
    | next st2 evs =>
      rw [hs] at he
      try dsimp only at he
      rw [List.mem_append] at he
      rcases he with hl | hr
      · have hn := recStep_no_cb FM freshId handlers st r
        rw [hs] at hn
        exact hn e hl
      · exact ih st2 e hr

theorem recLoop_cbCount (FM : FloatModel) (freshId : String)
    (handlers : List (MailboxMessage FM → Except String Unit))
    (responses : List ClaimResp) (st : LoopSt) :
    cbCount (recLoop FM freshId handlers responses st).1 = 0 :=
  cbCount_eq_zero _ (recLoop_no_cb FM freshId handlers responses st)

/-- When `start` returns `True`, the callback count of the whole run. -/
theorem startAfterGroup_cbCount (FM : FloatModel) (freshId : String) (cfg : MailboxConfig)
    (handlers : List (MailboxMessage FM → Except String Unit)) (probe : ProbeOutcome)
    (responses : List ClaimResp) (t0 t1 : ℚ) (r0 l0 : Bool)
    (hok : (startAfterGroup FM freshId cfg handlers true probe responses t0 t1).2
      = StartOut.ok r0 l0) :
    cbCount (startAfterGroup FM freshId cfg handlers true probe responses t0 t1).1
      = if cfg.enable_recovery && !handlers.isEmpty then 1 else 0 := by
  cases he : cfg.enable_recovery with
  | false => simp [startAfterGroup, he, cbCount]
  | true =>
    cases hemp : handlers.isEmpty with
    | true => simp [startAfterGroup, recoverPendingMessages, he, hemp, cbCount]
    | false =>
      cases probe with
      | cancelled =>
        rw [startAfterGroup, recoverPendingMessages] at hok
        simp [he, hemp] at hok
      | err msg =>
        simp [startAfterGroup, recoverPendingMessages, he, hemp, cbCount, isCb]
      | ok info =>
        cases info with
        | nil => simp [startAfterGroup, recoverPendingMessages, he, hemp, cbCount, isCb]
        | cons x xs =>
          cases hk : (recLoop FM freshId handlers responses
              { cursor := "0-0", total := 0, batches := 0 }).2 with
          | none =>
            rw [startAfterGroup, recoverPendingMessages] at hok
            simp [he, hemp, hk] at hok
          | some st =>
            simp [startAfterGroup, recoverPendingMessages, he, hemp, hk,
              cbCount_append, recLoop_cbCount, cbCount, isCb]

/-- `start` success implies returned `True` and a launched loop. -/
theorem startAfterGroup_ok (FM : FloatModel) (freshId : String) (cfg : MailboxConfig)
    (handlers : List (MailboxMessage FM → Except String Unit)) (cbSet : Bool)
    (probe : ProbeOutcome) (responses : List ClaimResp) (t0 t1 : ℚ) (r l : Bool)
    (h : (startAfterGroup FM freshId cfg handlers cbSet probe responses t0 t1).2
      = StartOut.ok r l) : r = true ∧ l = true := by
  unfold startAfterGroup at h
  cases he : cfg.enable_recovery with
  | false =>
    rw [he] at h
    simp at h
    exact h
  | true =>
    rw [he] at h
    cases hk : (recoverPendingMessages FM freshId cfg handlers cbSet probe responses t0 t1).2 with
    | none => simp [hk] at h
    | some st =>
      simp [hk] at h
      exact h

/-! ## A runner for the recovery loop against an unbounded response oracle -/

/-- Whether one loop iteration leaves the `while True` (or raises). -/
def stepStops : StepOut → Bool
  | .next _ _ => false
  | .broke _ _ => true
  | .raised => true

/-- Did decoding this claimed message succeed? -/
def decodeOk (FM : FloatModel) (freshId : String)
    (p : String × List (ByteStr × ByteStr)) : Bool :=
  match fromRedisFields FM freshId p.2 with
  | .ok _ => true
  | .error _ => false

/-- Does this single `xautoclaim` response make the loop stop (break or
raise), regardless of the loop state it arrives in? -/
def respBreaks (FM : FloatModel) (freshId : String) : ClaimResp → Bool
  | .cancelled => true
  | .exc => true
  | .malformed => true
  | .triple nextId msgs _ =>
    match msgs with
    | [] => nextId == "0-0"
    | _ :: _ => !(msgs.all (decodeOk FM freshId))

/-- State of a partially observed run: still inside the `while True`, or
out of it (via `break` or a raise). -/
inductive RunState where
  | running (st : LoopSt)
  | halted

/-- Run the claim-and-dispatch loop for up to `n` iterations against an
infinite oracle of `xautoclaim` responses, starting at oracle index `i`. -/
def recRun (FM : FloatModel) (freshId : String)
    (handlers : List (MailboxMessage FM → Except String Unit))
    (oracle : Nat → ClaimResp) : Nat → Nat → LoopSt → RunState
  | _, 0, st => .running st
  | i, n + 1, st =>
    match recStep FM freshId handlers st (oracle i) with
    | .next st2 _ => recRun FM freshId handlers oracle (i + 1) n st2
    | .broke _ _ => .halted
    | .raised => .halted

/-- Has the run left the loop? -/
def recStops : RunState → Bool
  | .running _ => false
  | .halted => true

/-- The loop, started from the source's initial state (`start_id = "0-0"`,
zero counters), leaves the `while True` after finitely many iterations. -/
def recTerminates (FM : FloatModel) (freshId : String)
    (handlers : List (MailboxMessage FM → Except String Unit))
    (oracle : Nat → ClaimResp) : Prop :=
  ∃ n, recStops (recRun FM freshId handlers oracle 0 n
    { cursor := "0-0", total := 0, batches := 0 }) = true

/-- The success flag of batch processing is exactly "every message of the
batch decoded". -/
theorem recProcess_flag (FM : FloatModel) (freshId : String)
    (handlers : List (MailboxMessage FM → Except String Unit)) :
    ∀ msgs, (recProcess FM freshId handlers msgs).2.2 = msgs.all (decodeOk FM freshId) := by
  intro msgs
  induction msgs with
  | nil => rfl
  | cons p rest ih =>
    obtain ⟨mid, fields⟩ := p
    rw [List.all_cons]
    cases hd : fromRedisFields FM freshId fields with
    | error e =>
      have h2 : decodeOk FM freshId (mid, fields) = false := by
        unfold decodeOk
        try dsimp only
        rw [hd]
      have h1 : (recProcess FM freshId handlers ((mid, fields) :: rest)).2.2 = false := by
        conv_lhs => unfold recProcess
        rw [hd]
      rw [h1, h2]
      simp
    | ok msg =>
      have h2 : decodeOk FM freshId (mid, fields) = true := by
        unfold decodeOk
        try dsimp only
        rw [hd]
      have h1 : (recProcess FM freshId handlers ((mid, fields) :: rest)).2.2
          = (recProcess FM freshId handlers rest).2.2 := by
        conv_lhs => unfold recProcess
        rw [hd]
      rw [h1, h2]
      simp only [Bool.true_and]
      exact ih

/-- Whether an iteration stops the loop depends only on the response. -/
theorem recStep_stops (FM : FloatModel) (freshId : String)
    (handlers : List (MailboxMessage FM → Except String Unit)) (st : LoopSt) (r : ClaimResp) :
    stepStops (recStep FM freshId handlers st r) = respBreaks FM freshId r := by
  cases r with
  | cancelled => rfl
  | exc => rfl
  | malformed => rfl
  | triple nextId msgs del =>
    cases msgs with
    | nil =>
      unfold recStep respBreaks
      try dsimp only
      by_cases h : nextId = "0-0"
      · subst h
        rw [if_pos rfl]
        rfl
      · rw [if_neg h]
        simp [stepStops, h]
    | cons q qs =>
      unfold recStep respBreaks
      try dsimp only
      rw [← recProcess_flag FM freshId handlers (q :: qs)]
      cases hf : (recProcess FM freshId handlers (q :: qs)).2.2
      · rfl
      · rw [if_pos rfl]
        rfl

/-- Unfolding one non-stopping iteration of the runner. -/
theorem recRun_next {FM : FloatModel} {freshId : String}
    {handlers : List (MailboxMessage FM → Except String Unit)} {oracle : Nat → ClaimResp}
    {i : Nat} {st st2 : LoopSt} {evs : List REvent} (n : Nat)
    (hs : recStep FM freshId handlers st (oracle i) = .next st2 evs) :
    recRun FM freshId handlers oracle i (n + 1) st
      = recRun FM freshId handlers oracle (i + 1) n st2 := by
  conv_lhs => unfold recRun
  rw [hs]

/-- Unfolding one stopping iteration of the runner. -/
theorem recRun_stop {FM : FloatModel} {freshId : String}
    {handlers : List (MailboxMessage FM → Except String Unit)} {oracle : Nat → ClaimResp}
    {i : Nat} {st : LoopSt} (n : Nat)
    (hs : stepStops (recStep FM freshId handlers st (oracle i)) = true) :
    recRun FM freshId handlers oracle i (n + 1) st = RunState.halted := by
  cases h : recStep FM freshId handlers st (oracle i) with
  | next st2 evs => rw [h] at hs; simp [stepStops] at hs
  | broke evs st2 =>
    conv_lhs => unfold recRun
    rw [h]
  | raised =>
    conv_lhs => unfold recRun
    rw [h]

/-- A stopped run exhibits a stopping response at or after its start index. -/
theorem recRun_stops_break {FM : FloatModel} {freshId : String}
    {handlers : List (MailboxMessage FM → Except String Unit)} (oracle : Nat → ClaimResp) :
    ∀ (n i : Nat) (st : LoopSt),
      recStops (recRun FM freshId handlers oracle i n st) = true →
      ∃ m, respBreaks FM freshId (oracle (i + m)) = true := by
  intro n
  induction n with
  | zero =>
    intro i st h
    simp [recRun, recStops] at h
  | succ n ih =>
    intro i st h
    cases hs : recStep FM freshId handlers st (oracle i) with
    | next st2 evs =>
      rw [recRun_next n hs] at h
      obtain ⟨m, hm⟩ := ih (i + 1) st2 h
      refine ⟨m + 1, ?_⟩
      rw [show i + (m + 1) = i + 1 + m by omega]
      exact hm
    | broke evs st2 =>
      refine ⟨0, ?_⟩
      have h2 := recStep_stops FM freshId handlers st (oracle i)
      rw [hs] at h2
      rw [Nat.add_zero, ← h2]
      rfl
    | raised =>
      refine ⟨0, ?_⟩
      have h2 := recStep_stops FM freshId handlers st (oracle i)
      rw [hs] at h2
      rw [Nat.add_zero, ← h2]
      rfl

/-- A stopping response at or after the start index stops the run. -/
theorem recRun_reach {FM : FloatModel} {freshId : String}
    {handlers : List (MailboxMessage FM → Except String Unit)} (oracle : Nat → ClaimResp) :
    ∀ (m i : Nat) (st : LoopSt),
      respBreaks FM freshId (oracle (i + m)) = true →
      ∃ n, recStops (recRun FM freshId handlers oracle i n st) = true := by
  intro m
  induction m with
  | zero =>
    intro i st h
    have hs : stepStops (recStep FM freshId handlers st (oracle i)) = true := by
      rw [recStep_stops]
      rwa [Nat.add_zero] at h
    refine ⟨0 + 1, ?_⟩
    rw [recRun_stop 0 hs]
    rfl
  | succ m ih =>
    intro i st h
    cases hs : recStep FM freshId handlers st (oracle i) with
    | next st2 evs =>
      have h' : respBreaks FM freshId (oracle (i + 1 + m)) = true := by
        rw [show i + 1 + m = i + (m + 1) by omega]
        exact h
      obtain ⟨n, hn⟩ := ih (i + 1) st2 h'
      refine ⟨n + 1, ?_⟩
      rw [recRun_next n hs]
      exact hn
    | broke evs st2 =>
      refine ⟨0 + 1, ?_⟩
      rw [recRun_stop 0 (by rw [hs]; rfl)]
      rfl
    | raised =>
      refine ⟨0 + 1, ?_⟩
      rw [recRun_stop 0 (by rw [hs]; rfl)]
      rfl

/-! ## Which entries a consume iteration can acknowledge -/

/-- An acknowledged id was a decoded entry of the processed list. -/
theorem processEntries_acked_mem (FM : FloatModel) (freshId : String)
    (handlers : List (MailboxMessage FM → Except String Unit)) (s i : String) :
    ∀ entries, CEvent.acked s i ∈ (processEntries FM freshId handlers s entries).1 →
      ∃ fields msg, (i, fields) ∈ entries ∧ fromRedisFields FM freshId fields = .ok msg := by
  intro entries
  induction entries with
  | nil => intro h; simp [processEntries] at h
  | cons p rest ih =>
    obtain ⟨mid, fields⟩ := p
    intro h
    unfold processEntries at h
    cases hd : fromRedisFields FM freshId fields with
    | error e =>
      rw [hd] at h
      simp at h
    | ok msg =>
      rw [hd] at h
      try dsimp only at h
      rw [List.mem_append] at h
      rcases h with h | h
      · rw [List.mem_append] at h
        rcases h with h | h
        · rw [List.mem_map] at h
          obtain ⟨d, _, hde⟩ := h
          cases hde
        · rw [List.mem_singleton] at h
          injection h with h1 h2
          subst h2
          exact ⟨fields, msg, List.mem_cons_self _ _, hd⟩
      · obtain ⟨f', m', hmem', hok'⟩ := ih h
        exact ⟨f', m', List.mem_cons_of_mem _ hmem', hok'⟩

/-- A decode failure stops entry processing: everything after the failing
entry is dropped and the failure flag is reported. -/
theorem processEntries_err (FM : FloatModel) (freshId : String)
    (handlers : List (MailboxMessage FM → Except String Unit)) (s mid : String)
    (fields : List (ByteStr × ByteStr)) (post : List (String × List (ByteStr × ByteStr)))
    (e : PyErr) (hd : fromRedisFields FM freshId fields = .error e) :
    ∀ pre, processEntries FM freshId handlers s (pre ++ (mid, fields) :: post)
      = ((processEntries FM freshId handlers s pre).1, false) := by
  intro pre
  induction pre with
  | nil =>
    simp only [List.nil_append]
    unfold processEntries
    rw [hd]
  | cons q pre' ih =>
    obtain ⟨m0, f0⟩ := q
    rw [List.cons_append]
    unfold processEntries
    cases h0 : fromRedisFields FM freshId f0 with
    | error e0 => rfl
    | ok msg0 =>
      rw [ih]

/-! ## Byte-level evaluation facts for concrete counterexamples -/

/-- The byte `0xFF` can never start a UTF-8 scalar. -/
theorem utf8First_255 : utf8First 255 [] = none := by
  unfold utf8First
  rw [if_neg (by omega), if_neg (by omega), if_neg (by omega), if_neg (by omega),
    if_neg (by omega)]

theorem utf8DecodeChars_255 : utf8DecodeChars [255] = none := by
  unfold utf8DecodeChars
  split
  next c rest heq =>
    rw [utf8First_255] at heq
    exact Option.noConfusion heq
  next heq => rfl

theorem utf8Decode_255 : utf8Decode [255] = .error .unicodeDecodeError := by
  unfold utf8Decode
  rw [utf8DecodeChars_255]

/-! ## The ten claims -/

/-- C1: the spec says the recovery callback, when set, is invoked exactly
once per `start`, including when `enable_recovery` is false or no
handlers are registered.  The code invokes it only when recovery is
enabled and at least one handler is registered; this theorem gives the
exact invocation count of a `start` run that returned `True` (the
disabled/no-handler short-circuits return without touching the
callback). -/
theorem c1_recovery_callback (FM : FloatModel) (freshId : String) (cfg : MailboxConfig)
    (handlers : List (MailboxMessage FM → Except String Unit))
    (conn grp : Except String Unit) (probe : ProbeOutcome)
    (responses : List ClaimResp) (t0 t1 : ℚ)
    (hok : ∃ r l, (start FM freshId cfg handlers true conn grp probe responses t0 t1).2
      = StartOut.ok r l) :
    cbCount (start FM freshId cfg handlers true conn grp probe responses t0 t1).1
      = if cfg.enable_recovery && !handlers.isEmpty then 1 else 0 := by
  obtain ⟨r0, l0, hok⟩ := hok
  unfold start at hok ⊢
  cases conn with
  | error e => simp at hok
  | ok u =>
    cases grp with
    | ok u2 => exact startAfterGroup_cbCount FM freshId cfg handlers probe responses t0 t1 r0 l0 hok
    | error e =>
      try dsimp only at hok ⊢
      by_cases hb : pyIn "BUSYGROUP" e = true
      · rw [if_pos hb] at hok ⊢
        exact startAfterGroup_cbCount FM freshId cfg handlers probe responses t0 t1 r0 l0 hok
      · rw [if_neg hb] at hok
        simp at hok

/-- C1 witness: with recovery enabled, one handler and a callback set, a
successful `start` invokes the callback exactly once. -/
theorem c1_recovery_callback_witness :
    cbCount (start unitFM "f" {} [fun _ => Except.ok ()] true (Except.ok ()) (Except.ok ())
      (ProbeOutcome.ok [()]) [ClaimResp.triple "0-0" [] []] 0 0).1 = 1 := by
  have h := c1_recovery_callback unitFM "f" {} [fun _ => Except.ok ()] (Except.ok ())
    (Except.ok ()) (ProbeOutcome.ok [()]) [ClaimResp.triple "0-0" [] []] 0 0
    ⟨true, true, rfl⟩
  simpa using h

/-- C1 counterexample: a service with a recovery callback set
(`cbSet = true`) and `enable_recovery = false` completes `start`
successfully with zero callback invocations, contradicting "invoked
exactly once ... including when enable_recovery is false". -/
theorem c1_recovery_callback_counterexample :
    cbCount (start unitFM "f" { enable_recovery := false } [] true (Except.ok ())
        (Except.ok ()) (ProbeOutcome.ok []) [] 0 0).1 = 0
    ∧ (start unitFM "f" { enable_recovery := false } [] true (Except.ok ())
        (Except.ok ()) (ProbeOutcome.ok []) [] 0 0).2 = StartOut.ok true true :=
  ⟨rfl, rfl⟩

/-- C2: the spec says a missing or empty `payload` field decodes to an
empty mapping and never errors.  A missing field does decode to the
empty mapping (first conjunct, via the `"{}"` default of `.get`), but an
empty-string payload reaches `json.loads("")`, which raises
`JSONDecodeError` (second conjunct). -/
theorem c2_payload_default (FM : FloatModel) (freshId : String) :
    (∀ (l : List (String × String)) (ts : FM.F),
       "payload" ∉ l.map Prod.fst →
       FM.ofStr (pyGet l "timestamp" "0.0") = some ts →
       fromRedisFields FM freshId (encodeFields l)
         = .ok { message_id := pyGet l "message_id" freshId
                 sender := pyGet l "sender" "unknown"
                 recipient := pyGet l "recipient" "unknown"
                 payload := JVal.obj []
                 message_type := pyGet l "message_type" "direct_message"
                 timestamp := ts })
  ∧ (∀ l : List (String × String),
       pyGet l "payload" "\x7b\x7d" = "" →
       fromRedisFields FM freshId (encodeFields l) = .error .jsonDecodeError) := by
  constructor
  · intro l ts hmiss hts
    unfold fromRedisFields
    rw [decodePairs_encode]
    try dsimp only
    unfold fromDecodedFields
    rw [pyGet_not_mem l "payload" _ hmiss, loads_braces]
    try dsimp only
    rw [hts]
  · intro l hemp
    unfold fromRedisFields
    rw [decodePairs_encode]
    try dsimp only
    unfold fromDecodedFields
    rw [hemp, loads_empty]

/-- C2 witness: a field map without a payload key decodes to the message
with an empty-mapping payload and the documented defaults. -/
theorem c2_payload_default_witness :
    fromRedisFields unitFM "f" (encodeFields [("sender", "alice")])
      = .ok { message_id := "f", sender := "alice", recipient := "unknown",
              payload := JVal.obj [], message_type := "direct_message",
              timestamp := () } := by
  have h := (c2_payload_default unitFM "f").1 [("sender", "alice")] () (by decide) (by rfl)
  exact h

/-- C2 counterexample: an empty-string payload field makes
`from_redis_fields` raise (model: return) a JSON decode error, not an
empty mapping — refuting "never an error". -/
theorem c2_payload_default_counterexample :
    fromRedisFields unitFM "f" (encodeFields [("payload", "")])
      = .error .jsonDecodeError := by
  unfold fromRedisFields
  rw [decodePairs_encode]
  rfl

/-- C3: the spec says non-UTF-8 bytes in any field are replaced by
defaults and decoding never crashes.  In the code, `k.decode()` /
`v.decode()` are strict: any field whose key or value bytes are not
valid UTF-8 makes `from_redis_fields` raise `UnicodeDecodeError`. -/
theorem c3_non_utf8 (FM : FloatModel) (freshId : String)
    (fields : List (ByteStr × ByteStr))
    (h : ∃ p ∈ fields, utf8Decode p.1 = .error PyErr.unicodeDecodeError ∨
      utf8Decode p.2 = .error PyErr.unicodeDecodeError) :
    fromRedisFields FM freshId fields = .error .unicodeDecodeError := by
  unfold fromRedisFields
  rw [decodePairs_error fields h]

/-- C3 witness: the theorem applied to a field whose key byte `0xFF` is
not valid UTF-8. -/
theorem c3_non_utf8_witness :
    fromRedisFields unitFM "f" [([255], [97])] = .error .unicodeDecodeError :=
  c3_non_utf8 unitFM "f" [([255], [97])]
    ⟨([255], [97]), by simp, Or.inl utf8Decode_255⟩

/-- C3 counterexample: a single field with key byte `0xFF` makes decoding
raise `UnicodeDecodeError` instead of substituting a default — refuting
"still returns a MailboxMessage ... never crashes". -/
theorem c3_non_utf8_counterexample :
    fromRedisFields unitFM "g" [([255], [97])] = .error .unicodeDecodeError := by
  unfold fromRedisFields
  rw [decodePairs_error [([255], [97])] ⟨([255], [97]), by simp, Or.inl utf8Decode_255⟩]

/-- C4: decode inverts encode.  For every message whose timestamp
round-trips through `str`/`float` (Python's guarantee for finite
floats), `from_redis_fields (to_redis_fields m)` returns `m` itself:
all six fields are preserved exactly. -/
theorem c4_codec_roundtrip (FM : FloatModel) (freshId : String) (m : MailboxMessage FM)
    (hts : FM.ofStr (FM.toStr m.timestamp) = some m.timestamp) :
    fromRedisFields FM freshId (encodeFields (toRedisFields FM m)) = .ok m := by
  unfold fromRedisFields
  rw [decodePairs_encode]
  try dsimp only
  unfold fromDecodedFields
  rw [pyGet_tr_payload, loads_dumps m.payload]
  try dsimp only
  rw [pyGet_tr_timestamp, hts]
  try dsimp only
  rw [pyGet_tr_message_id, pyGet_tr_sender, pyGet_tr_recipient, pyGet_tr_message_type]

/-- C4 witness: the round trip on a concrete message with a nested JSON
payload. -/
theorem c4_codec_roundtrip_witness :
    fromRedisFields unitFM "fresh"
      (encodeFields (toRedisFields unitFM
        ({ message_id := "id-1", sender := "alice", recipient := "bob",
           payload := JVal.obj [("k", JVal.str "v"), ("n", JVal.int (-2))],
           message_type := "direct_message", timestamp := () } : MailboxMessage unitFM)))
      = .ok { message_id := "id-1", sender := "alice", recipient := "bob",
              payload := JVal.obj [("k", JVal.str "v"), ("n", JVal.int (-2))],
              message_type := "direct_message", timestamp := () } :=
  c4_codec_roundtrip unitFM "fresh"
    { message_id := "id-1", sender := "alice", recipient := "bob",
      payload := JVal.obj [("k", JVal.str "v"), ("n", JVal.int (-2))],
      message_type := "direct_message", timestamp := () } (by rfl)

/-- C5: for a decoded entry, the consume loop dispatches to every
registered handler in registration order (handler exceptions are caught
and recorded, never stopping the iteration) and acknowledges the entry
after the dispatch, regardless of which handlers raised. -/
theorem c5_dispatch_then_ack (FM : FloatModel) (freshId : String)
    (handlers : List (MailboxMessage FM → Except String Unit)) (s mid : String)
    (fields : List (ByteStr × ByteStr)) (msg : MailboxMessage FM)
    (hdec : fromRedisFields FM freshId fields = .ok msg) :
    processEntries FM freshId handlers s [(mid, fields)]
      = ((dispatch handlers msg).map CEvent.dispatched ++ [CEvent.acked s mid], true)
  ∧ (dispatch handlers msg).filterMap dispatchIx = List.range handlers.length := by
  constructor
  · simp [processEntries, hdec]
  · exact dispatch_ix handlers msg

/-- C5 witness: one entry, one handler; the entry decodes via the
defaults, the handler is invoked, and the ack follows the dispatch. -/
theorem c5_dispatch_then_ack_witness :
    processEntries unitFM "f" [fun _ => Except.ok ()] "s" [("m1", [])]
      = ((dispatch [fun _ => Except.ok ()]
            ({ message_id := "f", sender := "unknown", recipient := "unknown",
               payload := JVal.obj [], message_type := "direct_message",
               timestamp := () } : MailboxMessage unitFM)).map CEvent.dispatched
          ++ [CEvent.acked "s" "m1"], true)
    ∧ (dispatch [fun _ => Except.ok ()]
          ({ message_id := "f", sender := "unknown", recipient := "unknown",
             payload := JVal.obj [], message_type := "direct_message",
             timestamp := () } : MailboxMessage unitFM)).filterMap dispatchIx
        = List.range 1 :=
  c5_dispatch_then_ack unitFM "f" [fun _ => Except.ok ()] "s" "m1" []
    { message_id := "f", sender := "unknown", recipient := "unknown",
      payload := JVal.obj [], message_type := "direct_message", timestamp := () }
    (by rfl)

/-- C6: the spec says the recovery loop terminates for every sequence of
`xautoclaim` responses.  The individual step rules hold as described
(first three conjuncts: empty batch with cursor `"0-0"` breaks, empty
batch with another cursor advances the cursor, a malformed response
breaks), but termination does not follow: against an unbounded oracle of
responses the loop leaves the `while True` iff some response is a
stopping one; an adversary answering every claim with an empty batch and
a fresh non-`"0-0"` cursor keeps it live-locked forever. -/
theorem c6_recovery_termination (FM : FloatModel) (freshId : String)
    (handlers : List (MailboxMessage FM → Except String Unit)) :
    (∀ (st : LoopSt) (del : List String),
       recStep FM freshId handlers st (ClaimResp.triple "0-0" [] del) = StepOut.broke [] st)
  ∧ (∀ (st : LoopSt) (nextId : String) (del : List String), nextId ≠ "0-0" →
       recStep FM freshId handlers st (ClaimResp.triple nextId [] del)
         = StepOut.next { st with cursor := nextId } [])
  ∧ (∀ st : LoopSt, recStep FM freshId handlers st ClaimResp.malformed = StepOut.broke [] st)
  ∧ (∀ oracle : Nat → ClaimResp,
       recTerminates FM freshId handlers oracle ↔
         ∃ n, respBreaks FM freshId (oracle n) = true) := by
  refine ⟨?_, ?_, ?_, ?_⟩
  · intro st del
    unfold recStep
    try dsimp only
    rw [if_pos rfl]
  · intro st nextId del h
    unfold recStep
    try dsimp only
    rw [if_neg h]
  · intro st
    rfl
  · intro oracle
    constructor
    · rintro ⟨n, hn⟩
      obtain ⟨m, hm⟩ := recRun_stops_break oracle n 0 _ hn
      rw [Nat.zero_add] at hm
      exact ⟨m, hm⟩
    · rintro ⟨n, hn⟩
      exact recRun_reach oracle n 0 _ (by rwa [Nat.zero_add])

/-- C6 witness: an empty batch with cursor `"1-1"` advances the cursor
instead of stopping. -/
theorem c6_recovery_termination_witness :
    recStep unitFM "f" [] { cursor := "0-0", total := 0, batches := 0 }
        (ClaimResp.triple "1-1" [] [])
      = StepOut.next { cursor := "1-1", total := 0, batches := 0 } [] :=
  (c6_recovery_termination unitFM "f" []).2.1
    { cursor := "0-0", total := 0, batches := 0 } "1-1" [] (by decide)

/-- C6 counterexample: the oracle that answers every `xautoclaim` with an
empty batch and next cursor `"1-1"` keeps the loop running forever — the
loop never leaves the `while True`, refuting "recovery terminates for
every (possibly adversarial) sequence of responses". -/
theorem c6_recovery_termination_counterexample :
    ¬ recTerminates unitFM "f" [] (fun _ => ClaimResp.triple "1-1" [] []) := by
  intro h
  obtain ⟨n, hn⟩ := h
  have key : ∀ (n i : Nat) (st : LoopSt), ∃ st2,
      recRun unitFM "f" [] (fun _ => ClaimResp.triple "1-1" [] []) i n st
        = RunState.running st2 := by
    intro n
    induction n with
    | zero => intro i st; exact ⟨st, rfl⟩
    | succ n ih =>
      intro i st
      have hs : recStep unitFM "f" [] st (ClaimResp.triple "1-1" [] [])
          = StepOut.next { st with cursor := "1-1" } [] := by
        unfold recStep
        try dsimp only
        rw [if_neg (by decide)]
      have h2 : recRun unitFM "f" [] (fun _ => ClaimResp.triple "1-1" [] []) i (n + 1) st
          = recRun unitFM "f" [] (fun _ => ClaimResp.triple "1-1" [] []) (i + 1) n
              { st with cursor := "1-1" } := by
        conv_lhs => unfold recRun
        try dsimp only
        rw [hs]
      rw [h2]
      exact ih (i + 1) _
  obtain ⟨st2, h2⟩ := key n 0 { cursor := "0-0", total := 0, batches := 0 }
  rw [h2] at hn
  simp [recStops] at hn

/-- C7: a `BUSYGROUP` substring in the group-creation error is absorbed
and `start` proceeds exactly as if creation had succeeded; any other
group-creation error propagates with an empty event trace; and whenever
`start` returns `.ok r l`, the service returned `True` and the consume
loop was launched. -/
theorem c7_busygroup (FM : FloatModel) (freshId : String) (cfg : MailboxConfig)
    (handlers : List (MailboxMessage FM → Except String Unit)) (cbSet : Bool)
    (probe : ProbeOutcome) (responses : List ClaimResp) (t0 t1 : ℚ) :
    (∀ e : String, pyIn "BUSYGROUP" e = false →
       start FM freshId cfg handlers cbSet (Except.ok ()) (Except.error e) probe responses t0 t1
         = ([], StartOut.raised e))
  ∧ (∀ e : String, pyIn "BUSYGROUP" e = true →
       start FM freshId cfg handlers cbSet (Except.ok ()) (Except.error e) probe responses t0 t1
         = startAfterGroup FM freshId cfg handlers cbSet probe responses t0 t1)
  ∧ (∀ (conn grp : Except String Unit) (r l : Bool),
       (start FM freshId cfg handlers cbSet conn grp probe responses t0 t1).2
         = StartOut.ok r l → r = true ∧ l = true) := by
  refine ⟨?_, ?_, ?_⟩
  · intro e h
    unfold start
    try dsimp only
    rw [if_neg (by simp [h])]
  · intro e h
    unfold start
    try dsimp only
    rw [if_pos h]
  · intro conn grp r l h
    unfold start at h
    cases conn with
    | error e => simp at h
    | ok u =>
      cases grp with
      | ok u2 =>
        exact startAfterGroup_ok FM freshId cfg handlers cbSet probe responses t0 t1 r l h
      | error e =>
        try dsimp only at h
        by_cases hb : pyIn "BUSYGROUP" e = true
        · rw [if_pos hb] at h
          exact startAfterGroup_ok FM freshId cfg handlers cbSet probe responses t0 t1 r l h
        · rw [if_neg hb] at h
          simp at h

/-- C7 witness: a concrete `BUSYGROUP ...` error string is absorbed and
`start` continues as if group creation had succeeded. -/
theorem c7_busygroup_witness :
    start unitFM "f" { enable_recovery := false } [] false (Except.ok ())
        (Except.error "BUSYGROUP Consumer Group name already exists")
        (ProbeOutcome.ok []) [] 0 0
      = startAfterGroup unitFM "f" { enable_recovery := false } [] false
          (ProbeOutcome.ok []) [] 0 0 :=
  (c7_busygroup unitFM "f" { enable_recovery := false } [] false
      (ProbeOutcome.ok []) [] 0 0).2.1
    "BUSYGROUP Consumer Group name already exists" (by rfl)

/-- C8: `send_message` emits exactly one `XADD`, to
`"{stream_prefix}:{recipient}:in"`, with approximate trimming to
`max_stream_length`; the appended entry's sender field is the service's
`agent_id` and its message_id field is the returned value; the returned
value is the supplied id for a non-empty supplied id and a fresh one
otherwise (empty-string ids are replaced — see the counterexample); and
nothing of it depends on `_running` or the registered handlers, so no
`start` is required. -/
theorem c8_send_message (FM : FloatModel) (agent_id : String) (cfg : MailboxConfig)
    (running : Bool) (handlers : List (MailboxMessage FM → Except String Unit))
    (recipient : String) (payload : JVal) (message_type : String)
    (message_id : Option String) (freshId : String) (now : FM.F) :
    (∃ fields,
      (sendMessage FM agent_id cfg running handlers recipient payload message_type
          message_id freshId now).1
        = [SEvent.connected,
           SEvent.xadd (cfg.streamPref ++ ":" ++ recipient ++ ":in") fields
             cfg.max_stream_length true]
      ∧ pyGet fields "sender" "" = agent_id
      ∧ pyGet fields "message_id" ""
          = (sendMessage FM agent_id cfg running handlers recipient payload message_type
              message_id freshId now).2)
  ∧ (sendMessage FM agent_id cfg running handlers recipient payload message_type
        message_id freshId now).2
      = (match message_id with
         | some s => if s = "" then freshId else s
         | none => freshId)
  ∧ (∀ (running2 : Bool) (handlers2 : List (MailboxMessage FM → Except String Unit)),
      sendMessage FM agent_id cfg running2 handlers2 recipient payload message_type
          message_id freshId now
        = sendMessage FM agent_id cfg running handlers recipient payload message_type
            message_id freshId now) := by
  refine ⟨⟨toRedisFields FM
      { message_id := (match message_id with
          | some s => if s = "" then freshId else s
          | none => freshId)
        sender := agent_id
        recipient := recipient
        payload := payload
        message_type := message_type
        timestamp := now }, rfl, ?_, ?_⟩, rfl, fun _ _ => rfl⟩
  · rw [pyGet_tr_sender]
  · rw [pyGet_tr_message_id]
    rfl

/-- C8 counterexample: with the empty string supplied as `message_id`,
Python's `message_id or str(uuid4())` is falsy, so the entry gets a
fresh id rather than the supplied one — refuting "the supplied one when
given". -/
theorem c8_send_message_counterexample :
    (sendMessage unitFM "a" {} true [] "bob" (JVal.obj []) "direct_message"
        (some "") "fresh-123" ()).2 = "fresh-123"
    ∧ "fresh-123" ≠ "" :=
  ⟨rfl, by decide⟩

/-- C9: within the consume loop, cancellation is re-raised (the loop ends
with `.cancelled` and only the cancel event), any other exception is
logged and followed by a `poll_interval` sleep after which the loop
continues, reading `_running = false` stops the loop, and a loop that is
never cancelled and always sees `_running = true` only ends by
exhausting the modelled input window. -/
theorem c9_consume_loop (FM : FloatModel) (freshId : String)
    (handlers : List (MailboxMessage FM → Except String Unit)) (p : ℚ) :
    (∀ inputs : List (Bool × IterIn),
       (∀ q ∈ inputs, q.1 = true) → (∀ q ∈ inputs, q.2 ≠ IterIn.cancel) →
       (consumeRun FM freshId handlers p inputs).2 = ExitReason.inputsExhausted)
  ∧ (∀ rest, consumeRun FM freshId handlers p ((true, IterIn.cancel) :: rest)
       = ([CEvent.cancelRaised], ExitReason.cancelled))
  ∧ (∀ rest, consumeRun FM freshId handlers p ((true, IterIn.exc) :: rest)
       = (CEvent.errorLogged :: CEvent.slept p :: (consumeRun FM freshId handlers p rest).1,
          (consumeRun FM freshId handlers p rest).2))
  ∧ (∀ (inp : IterIn) (rest : List (Bool × IterIn)),
       consumeRun FM freshId handlers p ((false, inp) :: rest) = ([], ExitReason.stopped)) := by
  refine ⟨?_, ?_, ?_, ?_⟩
  · intro inputs
    induction inputs with
    | nil => intro _ _; rfl
    | cons q rest ih =>
      intro h1 h2
      obtain ⟨b, i⟩ := q
      have hb : b = true := h1 (b, i) (List.mem_cons_self _ _)
      subst hb
      have hih := ih (fun q hq => h1 q (List.mem_cons_of_mem _ hq))
        (fun q hq => h2 q (List.mem_cons_of_mem _ hq))
      unfold consumeRun
      rw [if_pos rfl]
      cases i with
      | cancel => exact absurd rfl (h2 (true, IterIn.cancel) (List.mem_cons_self _ _))
      | exc => exact hih
      | timeout => exact hih
      | resp streams =>
        try dsimp only
        cases hp : (processStreams FM freshId handlers streams).2
        · rw [if_neg (by simp)]
          exact hih
        · rw [if_pos rfl]
          exact hih
  · intro rest
    rfl
  · intro rest
    rfl
  · intro inp rest
    rfl

/-- C9 witness: a quiet poll with the flag up runs the window out; a
lowered flag stops the loop. -/
theorem c9_consume_loop_witness :
    (consumeRun unitFM "f" [] 2 [(true, IterIn.timeout)]).2 = ExitReason.inputsExhausted
    ∧ consumeRun unitFM "f" [] 2 [(false, IterIn.timeout)] = ([], ExitReason.stopped) :=
  ⟨(c9_consume_loop unitFM "f" [] 2).1 [(true, IterIn.timeout)]
      (by intro q hq; simp at hq; rw [hq])
      (by intro q hq; simp at hq; rw [hq]; intro hc; cases hc),
    (c9_consume_loop unitFM "f" [] 2).2.2.2 IterIn.timeout []⟩

/-- C10: a present-but-invalid-JSON payload makes decoding raise (first
conjunct: a concrete such field map), and within a consume iteration the
raise aborts entry processing before the failing entry's `XACK`: its id
is never acknowledged in the iteration's event trace (second
conjunct). -/
theorem c10_poison_entry :
    (fromRedisFields unitFM "fresh" (encodeFields [("payload", "not json")])
        = .error .jsonDecodeError)
  ∧ (∀ (FM : FloatModel) (freshId : String)
       (handlers : List (MailboxMessage FM → Except String Unit)) (s : String)
       (pre post : List (String × List (ByteStr × ByteStr))) (mid : String)
       (fields : List (ByteStr × ByteStr)) (e : PyErr) (pv : ℚ),
       fromRedisFields FM freshId fields = .error e →
       mid ∉ pre.map Prod.fst →
       CEvent.acked s mid ∉
         (consumeRun FM freshId handlers pv
           [(true, IterIn.resp [(s, pre ++ (mid, fields) :: post)])]).1) := by
  refine ⟨?_, ?_⟩
  · unfold fromRedisFields
    rw [decodePairs_encode]
    rfl
  · intro FM freshId handlers s pre post mid fields e pv h hpre hmem
    have hrun : (consumeRun FM freshId handlers pv
        [(true, IterIn.resp [(s, pre ++ (mid, fields) :: post)])]).1
        = (processEntries FM freshId handlers s pre).1
            ++ [CEvent.errorLogged, CEvent.slept pv] := by
      simp [consumeRun, processStreams,
        processEntries_err FM freshId handlers s mid fields post e h pre]
    rw [hrun] at hmem
    rw [List.mem_append] at hmem
    rcases hmem with hm | hm
    · obtain ⟨fields', msg, hmem', hok⟩ :=
        processEntries_acked_mem FM freshId handlers s mid pre hm
      exact hpre (List.mem_map_of_mem Prod.fst hmem')
    · simp at hm

/-- C10 witness: the failing entry of the first conjunct, read by a
consume iteration, is never acknowledged. -/
theorem c10_poison_entry_witness :
    CEvent.acked "s" "m1" ∉ (consumeRun unitFM "fresh" [] 2
      [(true, IterIn.resp [("s", [("m1", encodeFields [("payload", "not json")])])])]).1 :=
  c10_poison_entry.2 unitFM "fresh" [] "s" [] [] "m1"
    (encodeFields [("payload", "not json")]) PyErr.jsonDecodeError 2
    (by unfold fromRedisFields; rw [decodePairs_encode]; rfl) (by simp)

end Mailbox
